import Mathlib

/-!
Verification development for the NetCopy file-transfer service.

This file shallowly embeds the wire codec, the message model, the crypto
engines and the server-side file-transfer state machine of the C++ sources
(`src/protocol/message.cpp`, `src/crypto/*.cpp`, `src/server/server.cpp`,
`src/file/file_manager.cpp`, `src/client/client.cpp`) as executable Lean
definitions, and proves or refutes the specified properties about them.

Machine bytes are modelled as `Nat` values below 256, 32-bit and 64-bit
integers as `Nat` values below `2^32` / `2^64`; every place where C++
truncates (an integral cast) carries an explicit `&&& 255` / low-bits
extraction, exactly as the source does.  Buffers are `List Nat`.  C++
functions that throw become `Except String`-valued functions whose error
strings are the exception messages of the source.
-/

namespace NetCopy

/-! ## Bit-level helpers -/

/-- `x &&& 255` is reduction mod 256 (`uint8_t` truncation). -/
theorem and_255_eq_mod (x : Nat) : x &&& 255 = x % 256 := by
  have h := Nat.and_pow_two_sub_one_eq_mod x 8
  norm_num at h
  exact h

/-- Bitwise `or` of a value below `2 ^ k` with a value shifted left by `k`
is plain addition: the bit ranges are disjoint. -/
theorem or_shiftLeft_eq_add (k a b : Nat) (h : a < 2 ^ k) :
    a ||| (b <<< k) = a + b * 2 ^ k := by
  induction k generalizing a b with
  | zero =>
    have ha : a = 0 := by omega
    subst ha
    simp [Nat.shiftLeft_eq]
  | succ k ih =>
    have hc : b <<< (k + 1) = 2 * (b * 2 ^ k) := by
      rw [Nat.shiftLeft_eq, pow_succ]
      ring
    have hc2 : (b <<< (k + 1)) % 2 = 0 := by omega
    have hmod : (a ||| b <<< (k + 1)) % 2 = a % 2 := by
      have hiff := @Nat.or_mod_two_eq_one a (b <<< (k + 1))
      have h1 := Nat.mod_two_eq_zero_or_one a
      have h2 := Nat.mod_two_eq_zero_or_one (a ||| b <<< (k + 1))
      rcases h1 with h1 | h1 <;> rcases h2 with h2 | h2 <;>
        simp [h1, h2, hc2] at hiff ⊢
    have hdiv : (a ||| b <<< (k + 1)) / 2 = a / 2 ||| (b <<< (k + 1)) / 2 :=
      Nat.or_div_two
    have hcd : (b <<< (k + 1)) / 2 = b <<< k := by
      rw [hc, Nat.shiftLeft_eq]
      omega
    have hak : a / 2 < 2 ^ k := by
      have : (2 : Nat) ^ (k + 1) = 2 * 2 ^ k := by rw [pow_succ]; ring
      omega
    have hih := ih (a / 2) b hak
    have hsplit := Nat.div_add_mod (a ||| b <<< (k + 1)) 2
    rw [hdiv, hcd, hih] at hsplit
    have : (2 : Nat) ^ (k + 1) = 2 * 2 ^ k := by rw [pow_succ]; ring
    omega

/-! ## Wire codec (`message.cpp`, anonymous namespace)

Writers return the bytes they would append to the growing buffer; readers
consume from the front of the remaining buffer, which models the
`(buffer, offset)` cursor of the source (the cursor always advances, so
the unread suffix is all a reader can see). -/

/-- `write_uint32`: four little-endian bytes of the low 32 bits. -/
def write_uint32 (v : Nat) : List Nat :=
  [v &&& 255, (v >>> 8) &&& 255, (v >>> 16) &&& 255, (v >>> 24) &&& 255]

/-- `write_uint64`: eight little-endian bytes. -/
def write_uint64 (v : Nat) : List Nat :=
  (List.range 8).map fun i => (v >>> (i * 8)) &&& 255

/-- `write_string`: u32 length (truncated cast, as in
`static_cast<uint32_t>(str.length())`) followed by the raw bytes. -/
def write_string (s : List Nat) : List Nat :=
  write_uint32 s.length ++ s

/-- `write_bytes`: identical layout to `write_string`. -/
def write_bytes (d : List Nat) : List Nat :=
  write_uint32 d.length ++ d

/-- `read_uint32`: little-endian reassembly
`buffer[o] | buffer[o+1] << 8 | buffer[o+2] << 16 | buffer[o+3] << 24`,
or the source's underflow error. -/
def read_uint32 : List Nat → Except String (Nat × List Nat)
  | b0 :: b1 :: b2 :: b3 :: rest =>
      .ok (b0 ||| b1 <<< 8 ||| b2 <<< 16 ||| b3 <<< 24, rest)
  | _ => .error "Buffer underflow reading uint32"

/-- `read_uint64`: eight little-endian bytes or-ed into place. -/
def read_uint64 : List Nat → Except String (Nat × List Nat)
  | b0 :: b1 :: b2 :: b3 :: b4 :: b5 :: b6 :: b7 :: rest =>
      .ok (b0 ||| b1 <<< 8 ||| b2 <<< 16 ||| b3 <<< 24 ||| b4 <<< 32 |||
           b5 <<< 40 ||| b6 <<< 48 ||| b7 <<< 56, rest)
  | _ => .error "Buffer underflow reading uint64"

/-- `read_string`: u32 length prefix, then that many bytes. -/
def read_string (l : List Nat) : Except String (List Nat × List Nat) := do
  let (n, r) ← read_uint32 l
  if n ≤ r.length then
    .ok (r.take n, r.drop n)
  else
    .error "Buffer underflow reading string"

/-- `read_bytes`: same layout as `read_string`. -/
def read_bytes (l : List Nat) : Except String (List Nat × List Nat) := do
  let (n, r) ← read_uint32 l
  if n ≤ r.length then
    .ok (r.take n, r.drop n)
  else
    .error "Buffer underflow reading bytes"

/-! ### Codec round-trip lemmas -/

theorem read_uint32_write (v : Nat) (r : List Nat) :
    read_uint32 (write_uint32 v ++ r) = .ok (v % 2 ^ 32, r) := by
  simp only [write_uint32, List.cons_append, List.nil_append, read_uint32]
  congr 2
  have e0 : v &&& 255 = v % 256 := and_255_eq_mod v
  have e1 : (v >>> 8) &&& 255 = v / 2 ^ 8 % 256 := by
    rw [and_255_eq_mod, Nat.shiftRight_eq_div_pow]
  have e2 : (v >>> 16) &&& 255 = v / 2 ^ 16 % 256 := by
    rw [and_255_eq_mod, Nat.shiftRight_eq_div_pow]
  have e3 : (v >>> 24) &&& 255 = v / 2 ^ 24 % 256 := by
    rw [and_255_eq_mod, Nat.shiftRight_eq_div_pow]
  rw [e0, e1, e2, e3]
  rw [or_shiftLeft_eq_add 8 _ _ (by omega),
      or_shiftLeft_eq_add 16 _ _ (by norm_num; omega),
      or_shiftLeft_eq_add 24 _ _ (by norm_num; omega)]
  norm_num
  omega

theorem read_uint64_write (v : Nat) (r : List Nat) :
    read_uint64 (write_uint64 v ++ r) = .ok (v % 2 ^ 64, r) := by
  simp only [write_uint64, List.range_succ, List.map_append, List.map_cons,
    List.map_nil, List.range_zero, List.nil_append, List.cons_append,
    List.append_assoc, read_uint64]
  congr 2
  have e : ∀ i : Nat, (v >>> (i * 8)) &&& 255 = v / 2 ^ (i * 8) % 256 := by
    intro i
    rw [and_255_eq_mod, Nat.shiftRight_eq_div_pow]
  simp only [e]
  norm_num
  rw [or_shiftLeft_eq_add 8 _ _ (by omega),
      or_shiftLeft_eq_add 16 _ _ (by norm_num; omega),
      or_shiftLeft_eq_add 24 _ _ (by norm_num; omega),
      or_shiftLeft_eq_add 32 _ _ (by norm_num; omega),
      or_shiftLeft_eq_add 40 _ _ (by norm_num; omega),
      or_shiftLeft_eq_add 48 _ _ (by norm_num; omega),
      or_shiftLeft_eq_add 56 _ _ (by norm_num; omega)]
  norm_num
  omega

theorem read_string_write (s : List Nat) (r : List Nat) (h : s.length < 2 ^ 32) :
    read_string (write_string s ++ r) = .ok (s, r) := by
  simp only [write_string, List.append_assoc, read_string, read_uint32_write,
    Nat.mod_eq_of_lt h, Bind.bind, Except.bind]
  rw [if_pos (by simp)]
  simp [List.take_left', List.drop_left']

theorem read_bytes_write (d : List Nat) (r : List Nat) (h : d.length < 2 ^ 32) :
    read_bytes (write_bytes d ++ r) = .ok (d, r) := by
  simp only [write_bytes, List.append_assoc, read_bytes, read_uint32_write,
    Nat.mod_eq_of_lt h, Bind.bind, Except.bind]
  rw [if_pos (by simp)]
  simp [List.take_left', List.drop_left']

/-! ## Message model (`message.h` / `message.cpp`)

`SecurityLevel` is an `enum class : uint8_t`; messages store its raw byte
value (HIGH = 0, FAST = 1, AES = 2, AES_256_GCM = 3).  Strings are byte
lists.  Each structure mirrors the payload fields of the C++ class. -/

structure MessageHeader where
  type : Nat
  payload_length : Nat
  sequence_number : Nat
  reserved : Nat
deriving Repr, DecidableEq

/-- `MessageHeader::serialize`: four u32 fields, little-endian. -/
def MessageHeader.serialize (h : MessageHeader) : List Nat :=
  write_uint32 h.type ++ write_uint32 h.payload_length ++
  write_uint32 h.sequence_number ++ write_uint32 h.reserved

/-- `MessageHeader::deserialize`: requires 16 bytes, reads four u32s. -/
def MessageHeader.deserialize (data : List Nat) :
    Except String MessageHeader := do
  if data.length < 16 then
    .error "Invalid header size"
  else
    let (t, r1) ← read_uint32 data
    let (pl, r2) ← read_uint32 r1
    let (sq, r3) ← read_uint32 r2
    let (rs, _) ← read_uint32 r3
    .ok ⟨t, pl, sq, rs⟩

structure HandshakeRequest where
  client_version : List Nat
  client_nonce : List Nat
  security_level : Nat
deriving Repr, DecidableEq

structure HandshakeResponse where
  server_version : List Nat
  server_nonce : List Nat
  authentication_required : Bool
  accepted_security_level : Nat
deriving Repr, DecidableEq

structure FileRequest where
  source_path : List Nat
  destination_path : List Nat
  recursive : Bool
  resume_offset : Nat
deriving Repr, DecidableEq

structure FileResponse where
  success : Bool
  error_message : List Nat
  file_size : Nat
  resume_offset : Nat
deriving Repr, DecidableEq

structure FileData where
  offset : Nat
  data : List Nat
  is_last_chunk : Bool
  compressed : Bool
deriving Repr, DecidableEq

structure FileAck where
  bytes_received : Nat
  success : Bool
  error_message : List Nat
deriving Repr, DecidableEq

structure ErrorMessage where
  error_code : Nat
  error_description : List Nat
deriving Repr, DecidableEq

/-- The typed message sum; the constructor tags match the u32 `MessageType`
values dispatched on by `Message::deserialize` (RESUME_REQUEST = 7 and
RESUME_RESPONSE = 8 have no decoder and are "Unknown message type"). -/
inductive Msg where
  | handshakeRequest (m : HandshakeRequest)
  | handshakeResponse (m : HandshakeResponse)
  | fileRequest (m : FileRequest)
  | fileResponse (m : FileResponse)
  | fileData (m : FileData)
  | fileAck (m : FileAck)
  | errorMessage (m : ErrorMessage)
deriving Repr, DecidableEq

def Msg.msgType : Msg → Nat
  | .handshakeRequest _ => 1
  | .handshakeResponse _ => 2
  | .fileRequest _ => 3
  | .fileResponse _ => 4
  | .fileData _ => 5
  | .fileAck _ => 6
  | .errorMessage _ => 9

/-! ### Payload serializers (`serialize_payload` of each class)

A `bool` is pushed as `1` or `0`; a `SecurityLevel` as its
`static_cast<uint8_t>` (`% 256`).  `FileData::serialize_payload` writes
`offset`, `data` and `is_last_chunk` only — the `compressed` member is
not written (message.cpp lines 262-268). -/

def HandshakeRequest.serialize_payload (m : HandshakeRequest) : List Nat :=
  write_string m.client_version ++ write_bytes m.client_nonce ++
  [m.security_level % 256]

def HandshakeResponse.serialize_payload (m : HandshakeResponse) : List Nat :=
  write_string m.server_version ++ write_bytes m.server_nonce ++
  [if m.authentication_required then 1 else 0] ++
  [m.accepted_security_level % 256]

def FileRequest.serialize_payload (m : FileRequest) : List Nat :=
  write_string m.source_path ++ write_string m.destination_path ++
  [if m.recursive then 1 else 0] ++ write_uint64 m.resume_offset

def FileResponse.serialize_payload (m : FileResponse) : List Nat :=
  [if m.success then 1 else 0] ++ write_string m.error_message ++
  write_uint64 m.file_size ++ write_uint64 m.resume_offset

def FileData.serialize_payload (m : FileData) : List Nat :=
  write_uint64 m.offset ++ write_bytes m.data ++
  [if m.is_last_chunk then 1 else 0]

def FileAck.serialize_payload (m : FileAck) : List Nat :=
  write_uint64 m.bytes_received ++ [if m.success then 1 else 0] ++
  write_string m.error_message

def ErrorMessage.serialize_payload (m : ErrorMessage) : List Nat :=
  write_uint32 m.error_code ++ write_string m.error_description

def Msg.serialize_payload : Msg → List Nat
  | .handshakeRequest m => m.serialize_payload
  | .handshakeResponse m => m.serialize_payload
  | .fileRequest m => m.serialize_payload
  | .fileResponse m => m.serialize_payload
  | .fileData m => m.serialize_payload
  | .fileAck m => m.serialize_payload
  | .errorMessage m => m.serialize_payload

/-- `Message::serialize`: header (with `payload_length` recomputed from the
payload, `reserved` = 0 as set by the `Message` constructor) followed by
the payload. -/
def Msg.serialize (m : Msg) (seq : Nat) : List Nat :=
  let payload := m.serialize_payload
  MessageHeader.serialize ⟨m.msgType, payload.length, seq, 0⟩ ++ payload

/-! ### Payload deserializers (`deserialize_payload` of each class)

Where the C++ reads an optional trailing byte under
`if (offset < data.size())`, the model matches on the unread suffix; the
field otherwise keeps the in-class default (`SecurityLevel::HIGH` = 0).
`FileData::deserialize_payload` never assigns `compressed`; the C++
leaves the member of the freshly constructed `FileData` indeterminate,
which the model pins to `false` (nothing below depends on the choice:
the serialized payload is independent of the flag either way). -/

def HandshakeRequest.deserialize_payload (data : List Nat) :
    Except String HandshakeRequest := do
  let (client_version, r1) ← read_string data
  let (client_nonce, r2) ← read_bytes r1
  match r2 with
  | [] => .ok ⟨client_version, client_nonce, 0⟩
  | b :: _ => .ok ⟨client_version, client_nonce, b⟩

def HandshakeResponse.deserialize_payload (data : List Nat) :
    Except String HandshakeResponse := do
  let (server_version, r1) ← read_string data
  let (server_nonce, r2) ← read_bytes r1
  match r2 with
  | [] => .error "Buffer underflow reading authentication flag"
  | b :: r3 =>
    match r3 with
    | [] => .ok ⟨server_version, server_nonce, b ≠ 0, 0⟩
    | c :: _ => .ok ⟨server_version, server_nonce, b ≠ 0, c⟩

def FileRequest.deserialize_payload (data : List Nat) :
    Except String FileRequest := do
  let (source_path, r1) ← read_string data
  let (destination_path, r2) ← read_string r1
  match r2 with
  | [] => .error "Buffer underflow reading recursive flag"
  | b :: r3 =>
    let (resume_offset, _) ← read_uint64 r3
    .ok ⟨source_path, destination_path, b ≠ 0, resume_offset⟩

def FileResponse.deserialize_payload (data : List Nat) :
    Except String FileResponse := do
  match data with
  | [] => .error "Buffer underflow reading success flag"
  | b :: r1 =>
    let (error_message, r2) ← read_string r1
    let (file_size, r3) ← read_uint64 r2
    let (resume_offset, _) ← read_uint64 r3
    .ok ⟨b ≠ 0, error_message, file_size, resume_offset⟩

def FileData.deserialize_payload (data_buffer : List Nat) :
    Except String FileData := do
  let (off, r1) ← read_uint64 data_buffer
  let (d, r2) ← read_bytes r1
  match r2 with
  | [] => .error "Buffer underflow reading last chunk flag"
  | b :: _ => .ok ⟨off, d, b ≠ 0, false⟩

def FileAck.deserialize_payload (data : List Nat) :
    Except String FileAck := do
  let (bytes_received, r1) ← read_uint64 data
  match r1 with
  | [] => .error "Buffer underflow reading success flag"
  | b :: r2 =>
    let (error_message, _) ← read_string r2
    .ok ⟨bytes_received, b ≠ 0, error_message⟩

def ErrorMessage.deserialize_payload (data : List Nat) :
    Except String ErrorMessage := do
  let (error_code, r1) ← read_uint32 data
  let (error_description, _) ← read_string r1
  .ok ⟨error_code, error_description⟩

/-- `Message::deserialize`: length checks, header parse, payload slice,
dispatch on the u32 kind.  Returns the parsed header together with the
typed message (the C++ stores the header into the fresh object). -/
def Msg.deserialize (data : List Nat) :
    Except String (MessageHeader × Msg) := do
  if data.length < 16 then
    .error "Message too short"
  else
    let hdr ← MessageHeader.deserialize data
    if data.length < 16 + hdr.payload_length then
      .error "Incomplete message"
    else
      let payload := (data.drop 16).take hdr.payload_length
      match hdr.type with
      | 1 => (HandshakeRequest.deserialize_payload payload).map
               fun m => (hdr, .handshakeRequest m)
      | 2 => (HandshakeResponse.deserialize_payload payload).map
               fun m => (hdr, .handshakeResponse m)
      | 3 => (FileRequest.deserialize_payload payload).map
               fun m => (hdr, .fileRequest m)
      | 4 => (FileResponse.deserialize_payload payload).map
               fun m => (hdr, .fileResponse m)
      | 5 => (FileData.deserialize_payload payload).map
               fun m => (hdr, .fileData m)
      | 6 => (FileAck.deserialize_payload payload).map
               fun m => (hdr, .fileAck m)
      | 9 => (ErrorMessage.deserialize_payload payload).map
               fun m => (hdr, .errorMessage m)
      | _ => .error "Unknown message type"

/-! ### Validity of message instances

A C++ instance satisfies these bounds by construction of its field types
(`uint64_t` fields are below `2^64`, the `SecurityLevel` byte below 256)
together with the implicit requirement that lengths fit the u32 length
prefixes the codec writes. -/

def HandshakeRequest.Valid (m : HandshakeRequest) : Prop :=
  m.client_version.length < 2 ^ 32 ∧ m.client_nonce.length < 2 ^ 32 ∧
  m.security_level < 256 ∧ m.serialize_payload.length < 2 ^ 32

def HandshakeResponse.Valid (m : HandshakeResponse) : Prop :=
  m.server_version.length < 2 ^ 32 ∧ m.server_nonce.length < 2 ^ 32 ∧
  m.accepted_security_level < 256 ∧ m.serialize_payload.length < 2 ^ 32

def FileRequest.Valid (m : FileRequest) : Prop :=
  m.source_path.length < 2 ^ 32 ∧ m.destination_path.length < 2 ^ 32 ∧
  m.resume_offset < 2 ^ 64 ∧ m.serialize_payload.length < 2 ^ 32

def FileResponse.Valid (m : FileResponse) : Prop :=
  m.error_message.length < 2 ^ 32 ∧ m.file_size < 2 ^ 64 ∧
  m.resume_offset < 2 ^ 64 ∧ m.serialize_payload.length < 2 ^ 32

def FileData.Valid (m : FileData) : Prop :=
  m.offset < 2 ^ 64 ∧ m.data.length < 2 ^ 32 ∧
  m.serialize_payload.length < 2 ^ 32

def FileAck.Valid (m : FileAck) : Prop :=
  m.bytes_received < 2 ^ 64 ∧ m.error_message.length < 2 ^ 32 ∧
  m.serialize_payload.length < 2 ^ 32

def ErrorMessage.Valid (m : ErrorMessage) : Prop :=
  m.error_code < 2 ^ 32 ∧ m.error_description.length < 2 ^ 32 ∧
  m.serialize_payload.length < 2 ^ 32

def Msg.Valid : Msg → Prop
  | .handshakeRequest m => m.Valid
  | .handshakeResponse m => m.Valid
  | .fileRequest m => m.Valid
  | .fileResponse m => m.Valid
  | .fileData m => m.Valid
  | .fileAck m => m.Valid
  | .errorMessage m => m.Valid

/-! ### Payload round-trips -/

theorem read_uint32_write_nil (v : Nat) :
    read_uint32 (write_uint32 v) = .ok (v % 2 ^ 32, []) := by
  simpa using read_uint32_write v []

theorem read_uint64_write_nil (v : Nat) :
    read_uint64 (write_uint64 v) = .ok (v % 2 ^ 64, []) := by
  simpa using read_uint64_write v []

theorem read_string_write_nil (s : List Nat) (h : s.length < 2 ^ 32) :
    read_string (write_string s) = .ok (s, []) := by
  simpa using read_string_write s [] h

theorem read_bytes_write_nil (d : List Nat) (h : d.length < 2 ^ 32) :
    read_bytes (write_bytes d) = .ok (d, []) := by
  simpa using read_bytes_write d [] h

theorem HandshakeRequest.deserialize_serialize_hrq (m : HandshakeRequest)
    (hv : m.Valid) :
    HandshakeRequest.deserialize_payload m.serialize_payload = .ok m := by
  obtain ⟨cv, cn, sl⟩ := m
  obtain ⟨h1, h2, h3, _⟩ := hv
  simp [HandshakeRequest.serialize_payload, List.append_assoc,
    HandshakeRequest.deserialize_payload, read_string_write _ _ h1,
    Bind.bind, Except.bind, read_bytes_write _ _ h2,
    read_bytes_write_nil _ h2,
    Nat.mod_eq_of_lt (show sl < 256 from h3)]

theorem HandshakeResponse.deserialize_serialize_hrsp (m : HandshakeResponse)
    (hv : m.Valid) :
    HandshakeResponse.deserialize_payload m.serialize_payload = .ok m := by
  obtain ⟨sv, sn, auth, sl⟩ := m
  obtain ⟨h1, h2, h3, _⟩ := hv
  cases auth <;>
    simp [HandshakeResponse.serialize_payload, List.append_assoc,
      List.cons_append, List.nil_append,
      HandshakeResponse.deserialize_payload, read_string_write _ _ h1,
      Bind.bind, Except.bind, read_bytes_write _ _ h2,
      Nat.mod_eq_of_lt (show sl < 256 from h3)]

theorem FileRequest.deserialize_serialize_freq (m : FileRequest) (hv : m.Valid) :
    FileRequest.deserialize_payload m.serialize_payload = .ok m := by
  obtain ⟨sp, dp, rc, ro⟩ := m
  obtain ⟨h1, h2, h3, _⟩ := hv
  cases rc <;>
    simp [FileRequest.serialize_payload, List.append_assoc,
      List.cons_append, List.nil_append,
      FileRequest.deserialize_payload, read_string_write _ _ h1,
      Bind.bind, Except.bind, read_string_write _ _ h2,
      read_uint64_write_nil,
      Nat.mod_eq_of_lt (show ro < 18446744073709551616 from h3)]

theorem FileResponse.deserialize_serialize_frsp (m : FileResponse)
    (hv : m.Valid) :
    FileResponse.deserialize_payload m.serialize_payload = .ok m := by
  obtain ⟨sc, em, fs, ro⟩ := m
  obtain ⟨h1, h2, h3, _⟩ := hv
  cases sc <;>
    simp [FileResponse.serialize_payload, List.append_assoc,
      List.cons_append, List.nil_append,
      FileResponse.deserialize_payload, read_string_write _ _ h1,
      Bind.bind, Except.bind, read_uint64_write, read_uint64_write_nil,
      Nat.mod_eq_of_lt (show fs < 18446744073709551616 from h2),
      Nat.mod_eq_of_lt (show ro < 18446744073709551616 from h3)]

theorem FileData.deserialize_serialize_fdata (m : FileData) (hv : m.Valid) :
    FileData.deserialize_payload m.serialize_payload =
      .ok ⟨m.offset, m.data, m.is_last_chunk, false⟩ := by
  obtain ⟨off, d, lc, cp⟩ := m
  obtain ⟨h1, h2, _⟩ := hv
  cases lc <;>
    simp [FileData.serialize_payload, List.append_assoc,
      FileData.deserialize_payload, read_uint64_write,
      Bind.bind, Except.bind,
      Nat.mod_eq_of_lt (show off < 18446744073709551616 from h1),
      read_bytes_write _ _ h2]

theorem FileAck.deserialize_serialize_fack (m : FileAck) (hv : m.Valid) :
    FileAck.deserialize_payload m.serialize_payload = .ok m := by
  obtain ⟨br, sc, em⟩ := m
  obtain ⟨h1, h2, _⟩ := hv
  cases sc <;>
    simp [FileAck.serialize_payload, List.append_assoc, List.cons_append,
      FileAck.deserialize_payload, read_uint64_write,
      Bind.bind, Except.bind,
      Nat.mod_eq_of_lt (show br < 18446744073709551616 from h1),
      read_string_write_nil _ h2]

theorem ErrorMessage.deserialize_serialize_emsg (m : ErrorMessage)
    (hv : m.Valid) :
    ErrorMessage.deserialize_payload m.serialize_payload = .ok m := by
  obtain ⟨ec, ed⟩ := m
  obtain ⟨h1, h2, _⟩ := hv
  simp [ErrorMessage.serialize_payload, List.append_assoc,
    ErrorMessage.deserialize_payload, read_uint32_write,
    Bind.bind, Except.bind,
    Nat.mod_eq_of_lt (show ec < 4294967296 from h1),
    read_string_write_nil _ h2]

/-! ### Full-message round-trip -/

theorem MessageHeader.length_serialize (h : MessageHeader) :
    h.serialize.length = 16 := by
  simp [MessageHeader.serialize, write_uint32]

theorem MessageHeader.deserialize_serialize_hdr (h : MessageHeader)
    (rest : List Nat) (h1 : h.type < 2 ^ 32) (h2 : h.payload_length < 2 ^ 32)
    (h3 : h.sequence_number < 2 ^ 32) (h4 : h.reserved < 2 ^ 32) :
    MessageHeader.deserialize (h.serialize ++ rest) = .ok h := by
  obtain ⟨t, pl, sq, rs⟩ := h
  have hlen :
      ((⟨t, pl, sq, rs⟩ : MessageHeader).serialize ++ rest).length =
        16 + rest.length := by
    simp [MessageHeader.length_serialize]
  simp only [MessageHeader.deserialize, hlen]
  rw [if_neg (by omega)]
  simp [MessageHeader.serialize, List.append_assoc, read_uint32_write,
    Bind.bind, Except.bind,
    Nat.mod_eq_of_lt (show t < 4294967296 from h1),
    Nat.mod_eq_of_lt (show pl < 4294967296 from h2),
    Nat.mod_eq_of_lt (show sq < 4294967296 from h3),
    Nat.mod_eq_of_lt (show rs < 4294967296 from h4)]

/-- What `Message::deserialize` can reconstruct: the identity on every
message except `FileData`, whose unserialized `compressed` flag comes back
as the model's fresh-object value. -/
def Msg.scrub : Msg → Msg
  | .fileData m => .fileData ⟨m.offset, m.data, m.is_last_chunk, false⟩
  | m => m

theorem Msg.msgType_lt (m : Msg) : m.msgType < 2 ^ 32 := by
  cases m <;> simp [Msg.msgType]

theorem Msg.deserialize_serialize_msg (m : Msg) (seq : Nat)
    (hseq : seq < 2 ^ 32) (hv : m.Valid) :
    Msg.deserialize (m.serialize seq) =
      .ok (⟨m.msgType, m.serialize_payload.length, seq, 0⟩, m.scrub) := by
  have hpl : m.serialize_payload.length < 2 ^ 32 := by
    cases m <;> first
    | exact hv.2.2.2
    | exact hv.2.2
  have hlen : (m.serialize seq).length = 16 + m.serialize_payload.length := by
    simp [Msg.serialize, MessageHeader.length_serialize]
  have hhdr : MessageHeader.deserialize (m.serialize seq) =
      .ok ⟨m.msgType, m.serialize_payload.length, seq, 0⟩ := by
    simpa [Msg.serialize] using
      MessageHeader.deserialize_serialize_hdr
        ⟨m.msgType, m.serialize_payload.length, seq, 0⟩ m.serialize_payload
        (Msg.msgType_lt m) hpl hseq (by norm_num)
  have hdrop : (m.serialize seq).drop 16 = m.serialize_payload := by
    simp only [Msg.serialize]
    exact List.drop_left'
      (MessageHeader.length_serialize ⟨m.msgType, m.serialize_payload.length, seq, 0⟩)
  simp only [Msg.deserialize, hlen]
  rw [if_neg (by omega)]
  simp only [Bind.bind, Except.bind, hhdr]
  rw [if_neg (by omega)]
  simp only [hdrop, List.take_length]
  cases m with
  | handshakeRequest m =>
    simp [Msg.msgType, Msg.serialize_payload, Msg.scrub,
      HandshakeRequest.deserialize_serialize_hrq m hv, Except.map]
  | handshakeResponse m =>
    simp [Msg.msgType, Msg.serialize_payload, Msg.scrub,
      HandshakeResponse.deserialize_serialize_hrsp m hv, Except.map]
  | fileRequest m =>
    simp [Msg.msgType, Msg.serialize_payload, Msg.scrub,
      FileRequest.deserialize_serialize_freq m hv, Except.map]
  | fileResponse m =>
    simp [Msg.msgType, Msg.serialize_payload, Msg.scrub,
      FileResponse.deserialize_serialize_frsp m hv, Except.map]
  | fileData m =>
    simp [Msg.msgType, Msg.serialize_payload, Msg.scrub,
      FileData.deserialize_serialize_fdata m hv, Except.map]
  | fileAck m =>
    simp [Msg.msgType, Msg.serialize_payload, Msg.scrub,
      FileAck.deserialize_serialize_fack m hv, Except.map]
  | errorMessage m =>
    simp [Msg.msgType, Msg.serialize_payload, Msg.scrub,
      ErrorMessage.deserialize_serialize_emsg m hv, Except.map]

/-! ## Claims C1, C2, C10 -/

/-- C1, counterexample: the round-trip identity fails on `FileData`.
`FileData::serialize_payload` writes `offset`, `data` and `is_last_chunk`
only, so a `FileData` with `compressed = true` serializes to the same
bytes as the one with `compressed = false`, and deserialization cannot
return the sender's `compressed` value: at this concrete input the
reconstructed message differs from the original in the `compressed`
payload field. -/
theorem C1_roundtrip_counterexample :
    Msg.deserialize ((Msg.fileData ⟨0, [65], true, true⟩).serialize 7) =
      .ok (⟨5, 14, 7, 0⟩, .fileData ⟨0, [65], true, false⟩) ∧
    (FileData.mk 0 [65] true true).serialize_payload =
      (FileData.mk 0 [65] true false).serialize_payload ∧
    Msg.fileData ⟨0, [65], true, false⟩ ≠ Msg.fileData ⟨0, [65], true, true⟩ := by
  refine ⟨rfl, rfl, by decide⟩

/-- C1 (amended): for every valid message instance and sequence number,
`Message::deserialize (Message::serialize m)` succeeds and returns a
message equal to `m` in type and in every payload field **except**
`FileData::compressed`, which is never serialized and comes back as the
fresh object's value (`Msg.scrub` is the identity on all variants other
than `FileData`, where it only replaces `compressed`). -/
theorem C1_roundtrip (m : Msg) (seq : Nat) (hseq : seq < 2 ^ 32)
    (hv : m.Valid) :
    Msg.deserialize (m.serialize seq) =
      .ok (⟨m.msgType, m.serialize_payload.length, seq, 0⟩, m.scrub) :=
  Msg.deserialize_serialize_msg m seq hseq hv

theorem C1_roundtrip_witness :
    Msg.deserialize ((Msg.fileAck ⟨3, true, [66, 67]⟩).serialize 2) =
      .ok (⟨6, 15, 2, 0⟩, Msg.fileAck ⟨3, true, [66, 67]⟩) :=
  C1_roundtrip (Msg.fileAck ⟨3, true, [66, 67]⟩) 2 (by decide)
    (show FileAck.Valid _ from ⟨by decide, by decide, by decide⟩)

/-- C2: the claim that the `compressed` flag is carried on the wire is
false of the code, and the surrounding program shows the claim (and the
spec) state the intent: `FileData` declares the member, the client sets
it and actually LZ4-compresses chunk payloads when it is true
(client.cpp 538-544), yet `serialize_payload` omits it, so the payload is
identical for both flag values and `deserialize_payload` never assigns
the member — the receiver cannot recover the sender's flag. -/
theorem C2_compressed_flag_dropped :
    (∀ (off : Nat) (d : List Nat) (lc b1 b2 : Bool),
      (FileData.mk off d lc b1).serialize_payload =
        (FileData.mk off d lc b2).serialize_payload) ∧
    FileData.deserialize_payload
        ((FileData.mk 5 [1, 2, 3] false true).serialize_payload) =
      .ok ⟨5, [1, 2, 3], false, false⟩ := by
  refine ⟨fun off d lc b1 b2 => rfl, rfl⟩

/-- C10: a `HandshakeRequest` payload that stops after the nonce (no
trailing security byte) deserializes successfully with
`security_level = HIGH` (0), and a `HandshakeResponse` payload that stops
after the authentication flag deserializes successfully with
`accepted_security_level = HIGH` (0): the optional trailing byte is read
only under `if (offset < data.size())` and the members default to
`SecurityLevel::HIGH`. -/
theorem C10_default_security_level (v n : List Nat) (b : Nat)
    (h1 : v.length < 2 ^ 32) (h2 : n.length < 2 ^ 32) :
    HandshakeRequest.deserialize_payload (write_string v ++ write_bytes n) =
      .ok ⟨v, n, 0⟩ ∧
    HandshakeResponse.deserialize_payload
        (write_string v ++ write_bytes n ++ [b]) =
      .ok ⟨v, n, b ≠ 0, 0⟩ := by
  constructor
  · simp [HandshakeRequest.deserialize_payload, read_string_write _ _ h1,
      Bind.bind, Except.bind, read_bytes_write_nil _ h2]
  · simp [HandshakeResponse.deserialize_payload, List.append_assoc,
      read_string_write _ _ h1, Bind.bind, Except.bind,
      read_bytes_write _ _ h2]

theorem C10_default_security_level_witness :
    HandshakeRequest.deserialize_payload
        (write_string [78, 67] ++ write_bytes [9, 8]) =
      .ok ⟨[78, 67], [9, 8], 0⟩ ∧
    HandshakeResponse.deserialize_payload
        (write_string [78, 67] ++ write_bytes [9, 8] ++ [1]) =
      .ok ⟨[78, 67], [9, 8], true, 0⟩ := by
  have h := C10_default_security_level [78, 67] [9, 8] 1
    (by decide) (by decide)
  simpa using h

/-! ## FAST suite: `XorCipher` (`xor_cipher.cpp`) and `FastSecurityEngine`

`KEY_SIZE = 32`, `CHUNK_SIZE = 1024`.  The cipher state is the current
32-byte key plus the round counter; `FastSecurityEngine::encrypt` and
`decrypt` both call `reset()` first (base key, counter 0) and then
`process`. -/

/-- 8-bit rotate left by one: `(x << 1) | (x >> 7)` truncated to a byte. -/
def rotl8 (x : Nat) : Nat := ((x <<< 1) ||| (x >>> 7)) &&& 255

/-- `XorCipher::update_key` with the already-incremented round counter
`rc`: each byte is xored with `(rc * 31 + i * 17) & 0xFF` and rotated
left by one. -/
def XorCipher.update_key (k : List Nat) (rc : Nat) : List Nat :=
  List.ofFn (n := 32) fun i =>
    rotl8 ((k.getD i 0) ^^^ ((rc * 31 + (i : Nat) * 17) &&& 255))

/-- One chunk of `XorCipher::process`: byte `i` of the chunk is xored
with `current_key_[i % KEY_SIZE]`. -/
def XorCipher.xor_chunk (ck : List Nat) : Nat → List Nat → List Nat
  | _, [] => []
  | i, b :: rest => (b ^^^ ck.getD (i % 32) 0) :: XorCipher.xor_chunk ck (i + 1) rest

/-- `XorCipher::process`: 1024-byte chunks, each xored with the current
key; the key is updated (with the counter pre-incremented) only when
more data follows. -/
def XorCipher.process (ck : List Nat) (rc : Nat) (data : List Nat) :
    List Nat :=
  if data.length ≤ 1024 then
    XorCipher.xor_chunk ck 0 data
  else
    XorCipher.xor_chunk ck 0 (data.take 1024) ++
      XorCipher.process (XorCipher.update_key ck (rc + 1)) (rc + 1)
        (data.drop 1024)
termination_by data.length
decreasing_by simp; omega

/-- `FastSecurityEngine::encrypt`: reset to the base key then process. -/
def FastSecurityEngine.encrypt (key data : List Nat) : List Nat :=
  XorCipher.process key 0 data

/-- `FastSecurityEngine::decrypt`: identical (XOR is symmetric). -/
def FastSecurityEngine.decrypt (key data : List Nat) : List Nat :=
  XorCipher.process key 0 data

theorem XorCipher.length_xor_chunk (ck : List Nat) (i : Nat)
    (d : List Nat) : (XorCipher.xor_chunk ck i d).length = d.length := by
  induction d generalizing i with
  | nil => rfl
  | cons b rest ih => simp [XorCipher.xor_chunk, ih]

theorem XorCipher.xor_chunk_xor_chunk (ck : List Nat) (i : Nat)
    (d : List Nat) :
    XorCipher.xor_chunk ck i (XorCipher.xor_chunk ck i d) = d := by
  induction d generalizing i with
  | nil => rfl
  | cons b rest ih =>
    simp [XorCipher.xor_chunk, ih, Nat.xor_assoc]

theorem XorCipher.length_process_xor (ck : List Nat) (rc : Nat)
    (d : List Nat) : (XorCipher.process ck rc d).length = d.length := by
  rw [XorCipher.process]
  by_cases h : d.length ≤ 1024
  · simp [h, XorCipher.length_xor_chunk]
  · have := XorCipher.length_process_xor (XorCipher.update_key ck (rc + 1))
      (rc + 1) (d.drop 1024)
    simp [h, XorCipher.length_xor_chunk, this]
    omega
termination_by d.length
decreasing_by simp; omega

theorem XorCipher.process_process_xor (ck : List Nat) (rc : Nat)
    (d : List Nat) :
    XorCipher.process ck rc (XorCipher.process ck rc d) = d := by
  by_cases h : d.length ≤ 1024
  · have e1 : XorCipher.process ck rc d = XorCipher.xor_chunk ck 0 d := by
      rw [XorCipher.process, if_pos h]
    rw [e1]
    have e2 : XorCipher.process ck rc (XorCipher.xor_chunk ck 0 d) =
        XorCipher.xor_chunk ck 0 (XorCipher.xor_chunk ck 0 d) := by
      rw [XorCipher.process,
        if_pos (by rw [XorCipher.length_xor_chunk]; exact h)]
    rw [e2]
    exact XorCipher.xor_chunk_xor_chunk ck 0 d
  · have hrec := XorCipher.process_process_xor
      (XorCipher.update_key ck (rc + 1)) (rc + 1) (d.drop 1024)
    have e1 : XorCipher.process ck rc d =
        XorCipher.xor_chunk ck 0 (d.take 1024) ++
          XorCipher.process (XorCipher.update_key ck (rc + 1)) (rc + 1)
            (d.drop 1024) := by
      rw [XorCipher.process, if_neg h]
    have htk : (XorCipher.xor_chunk ck 0 (d.take 1024)).length = 1024 := by
      rw [XorCipher.length_xor_chunk]
      simp
      omega
    have hlen2 : (XorCipher.xor_chunk ck 0 (d.take 1024) ++
        XorCipher.process (XorCipher.update_key ck (rc + 1)) (rc + 1)
          (d.drop 1024)).length = d.length := by
      simp [htk, XorCipher.length_process_xor]
      omega
    rw [e1]
    have e2 : XorCipher.process ck rc
        (XorCipher.xor_chunk ck 0 (d.take 1024) ++
          XorCipher.process (XorCipher.update_key ck (rc + 1)) (rc + 1)
            (d.drop 1024)) =
        XorCipher.xor_chunk ck 0
            ((XorCipher.xor_chunk ck 0 (d.take 1024) ++
              XorCipher.process (XorCipher.update_key ck (rc + 1)) (rc + 1)
                (d.drop 1024)).take 1024) ++
          XorCipher.process (XorCipher.update_key ck (rc + 1)) (rc + 1)
            ((XorCipher.xor_chunk ck 0 (d.take 1024) ++
              XorCipher.process (XorCipher.update_key ck (rc + 1)) (rc + 1)
                (d.drop 1024)).drop 1024) := by
      rw [XorCipher.process, if_neg (by omega)]
    rw [e2, List.take_left' htk, List.drop_left' htk,
      XorCipher.xor_chunk_xor_chunk, hrec]
    exact List.take_append_drop 1024 d
termination_by d.length
decreasing_by simp; omega

/-! ## AES suite: `AesCtr` (`aes_ctr.cpp`) and `AesSecurityEngine`

The model follows the software path (`encrypt_block_software`,
`expand_key`); the byte-for-word reinterpretations in `expand_key` are
little-endian, as on the x86 targets the source compiles for.  The s-box
table is transcribed literally from the source (including the source's
repeated entries in the 0xC0 row - CTR round-trips do not depend on the
block function being the standard AES). -/

/-- The source's `sbox[256]` table, verbatim. -/
def sbox : List Nat :=
  [0x63, 0x7c, 0x77, 0x7b, 0xf2, 0x6b, 0x6f, 0xc5, 0x30, 0x01, 0x67, 0x2b, 0xfe, 0xd7, 0xab, 0x76,
   0xca, 0x82, 0xc9, 0x7d, 0xfa, 0x59, 0x47, 0xf0, 0xad, 0xd4, 0xa2, 0xaf, 0x9c, 0xa4, 0x72, 0xc0,
   0xb7, 0xfd, 0x93, 0x26, 0x36, 0x3f, 0xf7, 0xcc, 0x34, 0xa5, 0xe5, 0xf1, 0x71, 0xd8, 0x31, 0x15,
   0x04, 0xc7, 0x23, 0xc3, 0x18, 0x96, 0x05, 0x9a, 0x07, 0x12, 0x80, 0xe2, 0xeb, 0x27, 0xb2, 0x75,
   0x09, 0x83, 0x2c, 0x1a, 0x1b, 0x6e, 0x5a, 0xa0, 0x52, 0x3b, 0xd6, 0xb3, 0x29, 0xe3, 0x2f, 0x84,
   0x53, 0xd1, 0x00, 0xed, 0x20, 0xfc, 0xb1, 0x5b, 0x6a, 0xcb, 0xbe, 0x39, 0x4a, 0x4c, 0x58, 0xcf,
   0xd0, 0xef, 0xaa, 0xfb, 0x43, 0x4d, 0x33, 0x85, 0x45, 0xf9, 0x02, 0x7f, 0x50, 0x3c, 0x9f, 0xa8,
   0x51, 0xa3, 0x40, 0x8f, 0x92, 0x9d, 0x38, 0xf5, 0xbc, 0xb6, 0xda, 0x21, 0x10, 0xff, 0xf3, 0xd2,
   0xcd, 0x0c, 0x13, 0xec, 0x5f, 0x97, 0x44, 0x17, 0xc4, 0xa7, 0x7e, 0x3d, 0x64, 0x5d, 0x19, 0x73,
   0x60, 0x81, 0x4f, 0xdc, 0x22, 0x2a, 0x90, 0x88, 0x46, 0xee, 0xb8, 0x14, 0xde, 0x5e, 0x0b, 0xdb,
   0xe0, 0x32, 0x3a, 0x0a, 0x49, 0x06, 0x24, 0x5c, 0xc2, 0xd3, 0xac, 0x62, 0x91, 0x95, 0xe4, 0x79,
   0xe7, 0xc8, 0x37, 0x6d, 0x8d, 0xd5, 0x4e, 0xa9, 0x6c, 0x56, 0xf4, 0xea, 0x65, 0x7a, 0xae, 0x08,
   0xba, 0x78, 0x25, 0x2e, 0x1c, 0xa6, 0xb4, 0x77, 0x25, 0x2e, 0x1c, 0xa6, 0xb4, 0xc6, 0xe8, 0xdd,
   0x74, 0x1f, 0x4b, 0xbd, 0x8b, 0x8a, 0x70, 0x3e, 0xb5, 0x66, 0x48, 0x03, 0xf6, 0x0e, 0x61, 0x35,
   0x57, 0xb9, 0x86, 0xc1, 0x1d, 0x9e, 0xe1, 0xf8, 0x98, 0x11, 0x69, 0xd9, 0x8e, 0x94, 0x9b, 0x1e,
   0x87, 0xe9, 0xce, 0x55, 0x28, 0xdf, 0x8c, 0xa1, 0x89, 0x0d, 0xbf, 0xe6, 0x42, 0x68, 0x41, 0x99]

/-- `rcon[11]` round constants. -/
def rcon : List Nat :=
  [0x00, 0x01, 0x02, 0x04, 0x08, 0x10, 0x20, 0x40, 0x80, 0x1b, 0x36]

/-- `*reinterpret_cast<uint32_t*>(&bytes[o])` on a little-endian target. -/
def leWordAt (bytes : List Nat) (o : Nat) : Nat :=
  bytes.getD o 0 ||| (bytes.getD (o + 1) 0 <<< 8) |||
  (bytes.getD (o + 2) 0 <<< 16) ||| (bytes.getD (o + 3) 0 <<< 24)

/-- The byte-wise s-box substitution on a 32-bit word used by
`expand_key`. -/
def AesCtr.sub_word (t : Nat) : Nat :=
  (sbox.getD ((t >>> 24) &&& 255) 0 <<< 24) |||
  (sbox.getD ((t >>> 16) &&& 255) 0 <<< 16) |||
  (sbox.getD ((t >>> 8) &&& 255) 0 <<< 8) |||
  sbox.getD (t &&& 255) 0

/-- `AesCtr::expand_key` at word granularity: words 0-7 are the key
bytes; each further word `w` transforms the previous word (rotate-left 8
and substitute plus a round constant when `w % 8 = 0`, substitute alone
when `w % 8 = 4`) and xors in word `w - 8`. -/
def AesCtr.expand_words (key : List Nat) : List Nat :=
  (List.range 52).foldl
    (fun ws j =>
      let w := j + 8
      let t0 := ws.getD (w - 1) 0
      let t1 :=
        if w % 8 = 0 then
          AesCtr.sub_word (((t0 <<< 8) &&& 4294967295) ||| (t0 >>> 24)) ^^^
            rcon.getD (w / 8) 0
        else if w % 8 = 4 then
          AesCtr.sub_word t0
        else t0
      ws ++ [t1 ^^^ ws.getD (w - 8) 0])
    ((List.range 8).map fun w => leWordAt key (4 * w))

/-- The 240-byte `expanded_key_`, little-endian bytes of the words. -/
def AesCtr.expanded_key (key : List Nat) : List Nat :=
  ((AesCtr.expand_words key).map write_uint32).flatten

/-- Source index of each state byte after the source's (simplified)
`ShiftRows`. -/
def AesCtr.shift_rows_src : Nat → Nat
  | 1 => 5 | 5 => 9 | 9 => 13 | 13 => 1
  | 2 => 10 | 10 => 2 | 6 => 14 | 14 => 6
  | 3 => 15 | 15 => 11 | 11 => 7 | 7 => 3
  | i => i

def AesCtr.sub_bytes (s : List Nat) : List Nat :=
  List.ofFn (n := 16) fun i => sbox.getD (s.getD i 0) 0

def AesCtr.shift_rows (s : List Nat) : List Nat :=
  List.ofFn (n := 16) fun i => s.getD (AesCtr.shift_rows_src i) 0

def AesCtr.add_round_key (ek s : List Nat) (r : Nat) : List Nat :=
  List.ofFn (n := 16) fun i => s.getD i 0 ^^^ ek.getD (r * 16 + i) 0

/-- `AesCtr::encrypt_block_software`: initial AddRoundKey, 13 rounds of
SubBytes-ShiftRows-AddRoundKey (MixColumns omitted by the source), then
the final SubBytes and AddRoundKey with round key 14. -/
def AesCtr.encrypt_block_software (ek pt : List Nat) : List Nat :=
  let s0 := List.ofFn (n := 16) fun i => pt.getD i 0 ^^^ ek.getD i 0
  let s13 := (List.range 13).foldl
    (fun s j =>
      AesCtr.add_round_key ek (AesCtr.shift_rows (AesCtr.sub_bytes s))
        (j + 1))
    s0
  AesCtr.add_round_key ek (AesCtr.sub_bytes s13) 14

/-- The CTR counter block: the first 8 IV bytes followed by the
little-endian 64-bit counter (the source overwrites IV bytes 8-15 with
`(counter >> (i*8)) & 0xFF` at position `8 + i`). -/
def AesCtr.counter_block (iv : List Nat) (counter : Nat) : List Nat :=
  iv.take 8 ++ write_uint64 counter

def AesCtr.keystream (ek iv : List Nat) (nb : Nat) : List Nat :=
  ((List.range nb).map fun j =>
    AesCtr.encrypt_block_software ek (AesCtr.counter_block iv j)).flatten

/-- `AesCtr::process`: empty input returns empty; otherwise each 16-byte
block of the data is xored with the encryption of the counter block,
counters 0, 1, 2, ... -/
def AesCtr.process (key iv data : List Nat) : List Nat :=
  if data = [] then []
  else
    List.zipWith Nat.xor data
      (AesCtr.keystream (AesCtr.expanded_key key) iv
        ((data.length + 15) / 16))

/-- `AesSecurityEngine::encrypt`: random 16-byte IV (a parameter here)
prepended to the CTR stream. -/
def AesSecurityEngine.encrypt (key iv data : List Nat) : List Nat :=
  iv ++ AesCtr.process key iv data

/-- `AesSecurityEngine::decrypt`: split the 16-byte IV off the front and
run CTR again. -/
def AesSecurityEngine.decrypt (key data : List Nat) :
    Except String (List Nat) :=
  if data.length < 16 then
    .error "Encrypted data too short for AES-CTR"
  else
    .ok (AesCtr.process key (data.take 16) (data.drop 16))

/-! ### AES-CTR round-trip -/

theorem zipWith_xor_xor (d ks : List Nat) (h : d.length ≤ ks.length) :
    List.zipWith Nat.xor (List.zipWith Nat.xor d ks) ks = d := by
  induction d generalizing ks with
  | nil => simp
  | cons b rest ih =>
    cases ks with
    | nil => simp at h
    | cons k kr =>
      simp only [List.zipWith]
      rw [ih kr (by simpa using h)]
      congr 1
      show b ^^^ k ^^^ k = b
      rw [Nat.xor_assoc]
      simp

theorem AesCtr.length_encrypt_block (ek pt : List Nat) :
    (AesCtr.encrypt_block_software ek pt).length = 16 := by
  have h : ∀ (l : List (List Nat)) (s : List Nat), s.length = 16 →
      (l.foldl (fun s _ => AesCtr.add_round_key ek
        (AesCtr.shift_rows (AesCtr.sub_bytes s)) 0) s).length = 16 := by
    intro l
    induction l with
    | nil => intro s hs; simpa
    | cons x xs ih => intro s hs; exact ih _ (by simp [AesCtr.add_round_key])
  simp [AesCtr.encrypt_block_software, AesCtr.add_round_key]

theorem AesCtr.length_keystream_aes (ek iv : List Nat) (nb : Nat) :
    (AesCtr.keystream ek iv nb).length = 16 * nb := by
  induction nb with
  | zero => simp [AesCtr.keystream]
  | succ n ih =>
    simp only [AesCtr.keystream, List.range_succ, List.map_append,
      List.map_cons, List.map_nil, List.flatten_append] at *
    simp [ih, AesCtr.length_encrypt_block]
    omega

theorem AesCtr.process_process_aes (key iv d : List Nat) :
    AesCtr.process key iv (AesCtr.process key iv d) = d := by
  by_cases hd : d = []
  · simp [hd, AesCtr.process]
  · have hks : d.length ≤ (AesCtr.keystream (AesCtr.expanded_key key) iv
        ((d.length + 15) / 16)).length := by
      rw [AesCtr.length_keystream_aes]
      omega
    have hplen : (AesCtr.process key iv d).length = d.length := by
      simp [AesCtr.process, hd, List.length_zipWith]
      omega
    have hpne : AesCtr.process key iv d ≠ [] := by
      intro hnil
      apply hd
      have h0 : d.length = 0 := by rw [← hplen, hnil]; rfl
      exact List.length_eq_zero.mp h0
    rw [AesCtr.process, if_neg hpne, hplen]
    rw [AesCtr.process, if_neg hd]
    exact zipWith_xor_xor d _ hks

/-- AES-suite round-trip, `AesSecurityEngine` level. -/
theorem AesSecurityEngine.decrypt_encrypt_aes (key iv data : List Nat)
    (hiv : iv.length = 16) :
    AesSecurityEngine.decrypt key (AesSecurityEngine.encrypt key iv data) =
      .ok data := by
  rw [AesSecurityEngine.encrypt, AesSecurityEngine.decrypt,
    if_neg (by simp [hiv]), List.take_left' hiv,
    List.drop_left' hiv]
  exact congrArg Except.ok (AesCtr.process_process_aes key iv data)

/-! ## HIGH suite: ChaCha20-Poly1305 (`chacha20_poly1305.cpp`) and
`HighSecurityEngine`

The block function, the Poly1305 accumulator (with the source's
non-standard limb handling, translated literally) and the tag layout are
embedded as they appear in the source; `memcpy`-based word loads are
little-endian as on the compiled targets. -/

/-- 32-bit rotate left: `(value << shift) | (value >> (32 - shift))` with
the left shift wrapping to 32 bits. -/
def rot32 (v n : Nat) : Nat :=
  ((v <<< n) &&& 4294967295) ||| (v >>> (32 - n))

/-- `ChaCha20::quarter_round` on state indices `a b c d`. -/
def ChaCha20.qr (s : List Nat) (a b c d : Nat) : List Nat :=
  let va1 := (s.getD a 0 + s.getD b 0) % 4294967296
  let vd1 := rot32 (s.getD d 0 ^^^ va1) 16
  let vc1 := (s.getD c 0 + vd1) % 4294967296
  let vb1 := rot32 (s.getD b 0 ^^^ vc1) 12
  let va2 := (va1 + vb1) % 4294967296
  let vd2 := rot32 (vd1 ^^^ va2) 8
  let vc2 := (vc1 + vd2) % 4294967296
  let vb2 := rot32 (vb1 ^^^ vc2) 7
  (((s.set a va2).set b vb2).set c vc2).set d vd2

/-- One double round (column round then diagonal round). -/
def ChaCha20.double_round (s : List Nat) : List Nat :=
  ChaCha20.qr (ChaCha20.qr (ChaCha20.qr (ChaCha20.qr
    (ChaCha20.qr (ChaCha20.qr (ChaCha20.qr (ChaCha20.qr s
      0 4 8 12) 1 5 9 13) 2 6 10 14) 3 7 11 15)
      0 5 10 15) 1 6 11 12) 2 7 8 13) 3 4 9 14

/-- The ChaCha20 constructor's state: constants, 8 key words, the
counter, 3 nonce words. -/
def ChaCha20.init_state (key nonce : List Nat) (counter : Nat) :
    List Nat :=
  [0x61707865, 0x3320646e, 0x79622d32, 0x6b206574] ++
  ((List.range 8).map fun i => leWordAt key (4 * i)) ++
  [counter % 4294967296] ++
  ((List.range 3).map fun i => leWordAt nonce (4 * i))

/-- `generate_keystream`: 10 double rounds, add the original state, emit
the 16 words little-endian (64 bytes). -/
def ChaCha20.block (key nonce : List Nat) (counter : Nat) : List Nat :=
  let st := ChaCha20.init_state key nonce counter
  let ws := ChaCha20.double_round^[10] st
  (((List.range 16).map fun i =>
    write_uint32 ((ws.getD i 0 + st.getD i 0) % 4294967296))).flatten

/-- Concatenated keystream blocks with counters `c, c+1, ...` (the
source increments `state_[12]`, a `uint32_t`; `init_state` reduces the
counter slot mod `2^32`). -/
def ChaCha20.keystream (key nonce : List Nat) (c nb : Nat) : List Nat :=
  ((List.range nb).map fun j => ChaCha20.block key nonce (c + j)).flatten

/-- `ChaCha20::encrypt`: xor the data against the keystream, block by
block. -/
def ChaCha20.chacha_xor (key nonce : List Nat) (c : Nat)
    (data : List Nat) : List Nat :=
  List.zipWith Nat.xor data
    (ChaCha20.keystream key nonce c ((data.length + 63) / 64))

/-- Poly1305 `r` limbs, with the source's clamping masks. -/
def Poly1305.rInit (key : List Nat) : List Nat :=
  [leWordAt key 0 &&& 0x3ffffff,
   (leWordAt key 3 >>> 2) &&& 0x3ffff03,
   (leWordAt key 6 >>> 4) &&& 0x3ffc0ff,
   (leWordAt key 9 >>> 6) &&& 0x3f03fff,
   (leWordAt key 12 >>> 8) &&& 0x00fffff]

/-- Poly1305 `s` words. -/
def Poly1305.sInit (key : List Nat) : List Nat :=
  [leWordAt key 16, leWordAt key 20, leWordAt key 24, leWordAt key 28]

/-- A 16-byte-or-less chunk packed into five u32 words plus the pad bit
at byte position `chunk_size`. -/
def Poly1305.chunk_words (chunk : List Nat) : List Nat :=
  let base := List.ofFn (n := 5) fun w =>
    (List.range 4).foldl
      (fun acc k =>
        let i := 4 * (w : Nat) + k
        if i < chunk.length then acc ||| (chunk.getD i 0 <<< (8 * (i % 4)))
        else acc) 0
  base.set (chunk.length / 4)
    (base.getD (chunk.length / 4) 0 ||| (1 <<< (8 * (chunk.length % 4))))

/-- The accumulator-plus-chunk carry chain (`uint64_t` carry, 32-bit
stores). -/
def Poly1305.add_words (carry : Nat) :
    List Nat → List Nat → List Nat
  | hi :: hs, ci :: cs =>
      (((carry + hi + ci) % 18446744073709551616) % 4294967296) ::
        Poly1305.add_words
          (((carry + hi + ci) % 18446744073709551616) >>> 32) hs cs
  | _, _ => []

/-- The `d[5]` products of `multiply_by_r`, including the source's extra
`* 5` term for wrapped limbs, accumulated in `uint64_t`. -/
def Poly1305.d_words (r h : List Nat) : List Nat :=
  List.ofFn (n := 5) fun i =>
    (List.range 5).foldl
      (fun acc j =>
        let acc1 := (acc + h.getD j 0 * r.getD (((i : Nat) + 5 - j) % 5) 0) %
          18446744073709551616
        if (i : Nat) < j then
          (acc1 + h.getD j 0 * r.getD ((i : Nat) + 5 - j) 0 * 5) %
            18446744073709551616
        else acc1) 0

/-- The 32-bit carry chain applied after additions and multiplication. -/
def Poly1305.carry_reduce (carry : Nat) : List Nat → List Nat
  | [] => []
  | di :: ds =>
      (((carry + di) % 18446744073709551616) % 4294967296) ::
        Poly1305.carry_reduce (((carry + di) % 18446744073709551616) >>> 32)
          ds

def Poly1305.mul_r (r h : List Nat) : List Nat :=
  Poly1305.carry_reduce 0 (Poly1305.d_words r h)

/-- `Poly1305::update`: 16-byte chunks, each added into the accumulator
and multiplied by `r`. -/
def Poly1305.update (r h data : List Nat) : List Nat :=
  if data.length = 0 then h
  else
    Poly1305.update r
      (Poly1305.mul_r r
        (Poly1305.add_words 0 h (Poly1305.chunk_words (data.take 16))))
      (data.drop 16)
termination_by data.length
decreasing_by simp; omega

/-- The last four tag words of `Poly1305::finalize`: accumulator words
plus `s` with carries. -/
def Poly1305.final_words (carry : Nat) : List Nat → List Nat → List Nat
  | hi :: hs, si :: ss =>
      (((carry + hi + si) % 18446744073709551616) % 4294967296) ::
        Poly1305.final_words
          (((carry + hi + si) % 18446744073709551616) >>> 32) hs ss
  | _, _ => []

/-- `Poly1305::finalize`: one more carry chain over the accumulator, then
add `s` and store the four words little-endian. -/
def Poly1305.finalize (s h : List Nat) : List Nat :=
  let h' := Poly1305.carry_reduce 0 h
  ((Poly1305.final_words 0 (h'.take 4) s).map write_uint32).flatten

/-- The full tag computation of `ChaCha20Poly1305::encrypt`/`decrypt`:
update over the additional data, the ciphertext, and the two
little-endian `uint64_t` lengths. -/
def ChaCha20Poly1305.compute_tag (polyKey ad ct : List Nat) : List Nat :=
  let r := Poly1305.rInit polyKey
  let h1 := Poly1305.update r [0, 0, 0, 0, 0] ad
  let h2 := Poly1305.update r h1 ct
  let h3 := Poly1305.update r h2
    (write_uint64 ad.length ++ write_uint64 ct.length)
  Poly1305.finalize (Poly1305.sInit polyKey) h3

/-- The Poly1305 key: ChaCha20 keystream (counter 0) over 32 zero
bytes. -/
def ChaCha20Poly1305.poly_key (key nonce : List Nat) : List Nat :=
  ChaCha20.chacha_xor key nonce 0 (List.replicate 32 0)

/-- `ChaCha20Poly1305::encrypt`: ciphertext (counter 1) followed by the
16-byte tag. -/
def ChaCha20Poly1305.encrypt (key nonce pt ad : List Nat) : List Nat :=
  ChaCha20.chacha_xor key nonce 1 pt ++
    ChaCha20Poly1305.compute_tag (ChaCha20Poly1305.poly_key key nonce) ad
      (ChaCha20.chacha_xor key nonce 1 pt)

/-- `ChaCha20Poly1305::decrypt`: strips the trailing 16-byte tag itself,
recomputes and compares, then decrypts. -/
def ChaCha20Poly1305.decrypt (key nonce ct tag ad : List Nat) :
    Except String (List Nat) :=
  if ct.length < 16 then
    .error "Ciphertext too short"
  else if ChaCha20Poly1305.compute_tag
      (ChaCha20Poly1305.poly_key key nonce) ad
      (ct.take (ct.length - 16)) = tag then
    .ok (ChaCha20.chacha_xor key nonce 1 (ct.take (ct.length - 16)))
  else
    .error "Authentication failed"

/-- `HighSecurityEngine::encrypt`: random 12-byte nonce (a parameter
here) prepended to ciphertext-plus-tag. -/
def HighSecurityEngine.encrypt (key nonce data : List Nat) : List Nat :=
  nonce ++ ChaCha20Poly1305.encrypt key nonce data []

/-- `HighSecurityEngine::decrypt`: split nonce, pass the remainder
(ciphertext including tag) plus the extracted tag down. -/
def HighSecurityEngine.decrypt (key data : List Nat) :
    Except String (List Nat) :=
  if data.length < 12 + 16 then
    .error "Encrypted message too short"
  else
    ChaCha20Poly1305.decrypt key (data.take 12) (data.drop 12)
      ((data.drop 12).drop ((data.drop 12).length - 16)) []

/-! ### HIGH-suite round-trip -/

theorem length_flatten_range_map (f : Nat → List Nat) (c : Nat)
    (hf : ∀ i, (f i).length = c) (n : Nat) :
    (((List.range n).map f).flatten).length = c * n := by
  induction n with
  | zero => simp
  | succ k ih =>
    rw [List.range_succ]
    simp only [List.map_append, List.map_cons, List.map_nil,
      List.flatten_append, List.length_append, ih]
    simp [hf, Nat.mul_succ]

theorem ChaCha20.length_block (key nonce : List Nat) (c : Nat) :
    (ChaCha20.block key nonce c).length = 64 :=
  length_flatten_range_map
    (fun i => write_uint32
      (((ChaCha20.double_round^[10]
          (ChaCha20.init_state key nonce c)).getD i 0 +
        (ChaCha20.init_state key nonce c).getD i 0) % 4294967296))
    4 (fun i => by simp [write_uint32]) 16

theorem ChaCha20.length_keystream_chacha (key nonce : List Nat) (c nb : Nat) :
    (ChaCha20.keystream key nonce c nb).length = 64 * nb :=
  length_flatten_range_map _ 64
    (fun j => ChaCha20.length_block key nonce (c + j)) nb

theorem ChaCha20.length_chacha_xor (key nonce : List Nat) (c : Nat)
    (d : List Nat) :
    (ChaCha20.chacha_xor key nonce c d).length = d.length := by
  simp [ChaCha20.chacha_xor, List.length_zipWith,
    ChaCha20.length_keystream_chacha]
  omega

theorem ChaCha20.chacha_xor_chacha_xor (key nonce : List Nat) (c : Nat)
    (d : List Nat) :
    ChaCha20.chacha_xor key nonce c (ChaCha20.chacha_xor key nonce c d) =
      d := by
  rw [ChaCha20.chacha_xor, ChaCha20.length_chacha_xor,
    ChaCha20.chacha_xor]
  exact zipWith_xor_xor d _ (by rw [ChaCha20.length_keystream_chacha]; omega)

theorem Poly1305.length_carry_reduce (c : Nat) (l : List Nat) :
    (Poly1305.carry_reduce c l).length = l.length := by
  induction l generalizing c with
  | nil => rfl
  | cons x xs ih => simp [Poly1305.carry_reduce, ih]

theorem Poly1305.length_mul_r (r h : List Nat) :
    (Poly1305.mul_r r h).length = 5 := by
  simp [Poly1305.mul_r, Poly1305.length_carry_reduce, Poly1305.d_words]

theorem Poly1305.length_update (r h data : List Nat) (hh : h.length = 5) :
    (Poly1305.update r h data).length = 5 := by
  rw [Poly1305.update]
  by_cases hd : data.length = 0
  · simpa [hd]
  · have := Poly1305.length_update r
      (Poly1305.mul_r r
        (Poly1305.add_words 0 h (Poly1305.chunk_words (data.take 16))))
      (data.drop 16) (Poly1305.length_mul_r _ _)
    simpa [hd] using this
termination_by data.length
decreasing_by simp; omega

theorem Poly1305.length_final_words (c : Nat) (hs ss : List Nat) :
    (Poly1305.final_words c hs ss).length = min hs.length ss.length := by
  induction hs generalizing c ss with
  | nil => simp [Poly1305.final_words]
  | cons x xs ih =>
    cases ss with
    | nil => simp [Poly1305.final_words]
    | cons y ys => simp [Poly1305.final_words, ih]; omega

theorem length_flatten_map_write_uint32 (l : List Nat) :
    ((l.map write_uint32).flatten).length = 4 * l.length := by
  induction l with
  | nil => simp
  | cons x xs ih =>
    simp [write_uint32, ih]
    omega

theorem ChaCha20Poly1305.length_compute_tag (polyKey ad ct : List Nat) :
    (ChaCha20Poly1305.compute_tag polyKey ad ct).length = 16 := by
  have h3 : (Poly1305.update (Poly1305.rInit polyKey)
      (Poly1305.update (Poly1305.rInit polyKey)
        (Poly1305.update (Poly1305.rInit polyKey) [0, 0, 0, 0, 0] ad) ct)
      (write_uint64 ad.length ++ write_uint64 ct.length)).length = 5 := by
    apply Poly1305.length_update
    apply Poly1305.length_update
    apply Poly1305.length_update
    rfl
  simp only [ChaCha20Poly1305.compute_tag, Poly1305.finalize,
    length_flatten_map_write_uint32, Poly1305.length_final_words,
    List.length_take, Poly1305.length_carry_reduce, h3, Poly1305.sInit,
    List.length_cons, List.length_nil]
  rfl

/-- HIGH-suite round-trip, `HighSecurityEngine` level: the recomputed tag
matches the appended one (same function of the same ciphertext), and the
second keystream xor cancels the first. -/
theorem HighSecurityEngine.decrypt_encrypt_high (key nonce data : List Nat)
    (hn : nonce.length = 12) :
    HighSecurityEngine.decrypt key
      (HighSecurityEngine.encrypt key nonce data) = .ok data := by
  rw [HighSecurityEngine.encrypt, ChaCha20Poly1305.encrypt]
  set ct := ChaCha20.chacha_xor key nonce 1 data with hct
  set tag := ChaCha20Poly1305.compute_tag
    (ChaCha20Poly1305.poly_key key nonce) [] ct with htag
  have lct : ct.length = data.length := ChaCha20.length_chacha_xor _ _ _ _
  have ltag : tag.length = 16 := ChaCha20Poly1305.length_compute_tag _ _ _
  rw [HighSecurityEngine.decrypt]
  rw [if_neg (by simp [hn, ltag]; omega)]
  rw [List.take_left' hn, List.drop_left' hn]
  have hlen : (ct ++ tag).length = ct.length + 16 := by simp [ltag]
  have hextract : (ct ++ tag).drop ((ct ++ tag).length - 16) = tag := by
    rw [hlen]
    exact List.drop_left' (by omega)
  rw [hextract, ChaCha20Poly1305.decrypt]
  rw [if_neg (by rw [hlen]; omega)]
  have hactual : (ct ++ tag).take ((ct ++ tag).length - 16) = ct := by
    rw [hlen]
    exact List.take_left' (by omega)
  rw [hactual, if_pos rfl, hct]
  exact congrArg Except.ok (ChaCha20.chacha_xor_chacha_xor key nonce 1 data)

/-! ## AES-256-GCM suite: CPU fallback (`aes_256_gcm_gpu_cpu.cpp`) and
`GpuSecurityEngine`

`Aes256GcmGpu` always takes the CPU-fallback path (CUDA is not
compiled): AES-CTR with the 12-byte GCM IV zero-padded to 16, plus the
source's keyed xor-fold tag. -/

/-- The fallback tag: `tag[i] = key_[i] ^ iv[i % 12]` xor-folded with
every 16th ciphertext byte starting at `i`. -/
def Aes256GcmGpu.gcm_tag (key iv ct : List Nat) : List Nat :=
  List.ofFn (n := 16) fun i =>
    (List.range ((ct.length + 15) / 16)).foldl
      (fun acc t =>
        if (i : Nat) + 16 * t < ct.length then
          acc ^^^ ct.getD ((i : Nat) + 16 * t) 0
        else acc)
      (key.getD i 0 ^^^ iv.getD ((i : Nat) % 12) 0)

/-- `encrypt_cpu`: AES-CTR under the zero-padded IV, tag appended. -/
def Aes256GcmGpu.encrypt_cpu (key iv pt : List Nat) : List Nat :=
  AesCtr.process key (iv ++ List.replicate 4 0) pt ++
    Aes256GcmGpu.gcm_tag key iv
      (AesCtr.process key (iv ++ List.replicate 4 0) pt)

/-- `decrypt_cpu`: expects its `ciphertext` argument to still carry the
trailing 16-byte tag — it splits the last 16 bytes off again, verifies
them against the recomputed fold, and CTR-decrypts the rest.  The `tag`
argument passed by the engine is never used. -/
def Aes256GcmGpu.decrypt_cpu (key iv ct tag : List Nat) :
    Except String (List Nat) :=
  if ct.length < 16 then
    .error "Ciphertext too short for authentication tag"
  else if ct.drop (ct.length - 16) =
      Aes256GcmGpu.gcm_tag key iv (ct.take (ct.length - 16)) then
    .ok (AesCtr.process key (iv ++ List.replicate 4 0)
      (ct.take (ct.length - 16)))
  else
    .error "Authentication tag verification failed"

/-- `GpuSecurityEngine::encrypt`: random 12-byte IV (a parameter here)
prepended. -/
def GpuSecurityEngine.encrypt (key iv data : List Nat) : List Nat :=
  iv ++ Aes256GcmGpu.encrypt_cpu key iv data

/-- `GpuSecurityEngine::decrypt`: splits the IV off, then ALSO strips the
trailing 16 tag bytes before handing the remaining ciphertext (and the
stripped tag) to `Aes256GcmGpu::decrypt` — which strips another 16
bytes. -/
def GpuSecurityEngine.decrypt (key data : List Nat) :
    Except String (List Nat) :=
  if data.length < 12 + 16 then
    .error "Encrypted data too short for AES-256-GCM"
  else if (data.drop 12).length < 16 then
    .error "Ciphertext too short for authentication tag"
  else
    Aes256GcmGpu.decrypt_cpu key (data.take 12)
      ((data.drop 12).take ((data.drop 12).length - 16))
      ((data.drop 12).drop ((data.drop 12).length - 16))

theorem AesCtr.length_process_aes (key iv d : List Nat) :
    (AesCtr.process key iv d).length = d.length := by
  by_cases hd : d = []
  · simp [hd, AesCtr.process]
  · simp [AesCtr.process, hd, List.length_zipWith,
      AesCtr.length_keystream_aes]
    omega

/-- The GCM suite never round-trips: the double tag strip either leaves
fewer than 16 bytes (decrypt error), fails the tag comparison (decrypt
error), or succeeds on a plaintext 16 bytes shorter than the
original. -/
theorem GpuSecurityEngine.decrypt_encrypt_ne (key iv data : List Nat)
    (hiv : iv.length = 12) :
    GpuSecurityEngine.decrypt key
      (GpuSecurityEngine.encrypt key iv data) ≠ .ok data := by
  rw [GpuSecurityEngine.encrypt, Aes256GcmGpu.encrypt_cpu]
  set P := AesCtr.process key (iv ++ List.replicate 4 0) data with hP
  set T := Aes256GcmGpu.gcm_tag key iv P with hT
  have lp : P.length = data.length := AesCtr.length_process_aes _ _ _
  have lt : T.length = 16 := by simp [hT, Aes256GcmGpu.gcm_tag]
  have hlen : (iv ++ (P ++ T)).length = 12 + (P.length + 16) := by
    simp [hiv, lt]
  rw [GpuSecurityEngine.decrypt, if_neg (by omega),
    List.drop_left' hiv]
  have hlen2 : (P ++ T).length = P.length + 16 := by simp [lt]
  rw [if_neg (by omega)]
  have htake : (P ++ T).take ((P ++ T).length - 16) = P := by
    rw [hlen2]
    exact List.take_left' (by omega)
  have hdrop : (P ++ T).drop ((P ++ T).length - 16) = T := by
    rw [hlen2]
    exact List.drop_left' (by omega)
  rw [htake, hdrop, List.take_left' hiv, Aes256GcmGpu.decrypt_cpu]
  by_cases hshort : P.length < 16
  · rw [if_pos hshort]
    intro hcontr
    cases hcontr
  · rw [if_neg hshort]
    by_cases htagok : P.drop (P.length - 16) =
        Aes256GcmGpu.gcm_tag key iv (P.take (P.length - 16))
    · rw [if_pos htagok]
      intro hcontr
      have heq := Except.ok.inj hcontr
      have : (AesCtr.process key (iv ++ List.replicate 4 0)
          (P.take (P.length - 16))).length = data.length := by
        rw [heq]
      rw [AesCtr.length_process_aes, List.length_take] at this
      omega
    · rw [if_neg htagok]
      intro hcontr
      cases hcontr

/-! ## The uniform crypto engine (`crypto_engine.cpp`) and claim C4 -/

inductive SecurityLevel where
  | high
  | fast
  | aes
  | aes_256_gcm
deriving Repr, DecidableEq

/-- The per-frame random nonce/IV length each engine's `encrypt`
generates. -/
def SecurityLevel.nonce_size : SecurityLevel → Nat
  | .high => 12
  | .fast => 0
  | .aes => 16
  | .aes_256_gcm => 12

/-- `CryptoEngine::encrypt` dispatched over the four concrete engines;
the per-frame random nonce/IV is a parameter (unused by FAST). -/
def CryptoEngine.encrypt (s : SecurityLevel) (key nonce data : List Nat) :
    List Nat :=
  match s with
  | .high => HighSecurityEngine.encrypt key nonce data
  | .fast => FastSecurityEngine.encrypt key data
  | .aes => AesSecurityEngine.encrypt key nonce data
  | .aes_256_gcm => GpuSecurityEngine.encrypt key nonce data

/-- `CryptoEngine::decrypt` dispatched over the four concrete engines
(each recovers its nonce/IV from the frame; FAST cannot fail). -/
def CryptoEngine.decrypt (s : SecurityLevel) (key data : List Nat) :
    Except String (List Nat) :=
  match s with
  | .high => HighSecurityEngine.decrypt key data
  | .fast => .ok (FastSecurityEngine.decrypt key data)
  | .aes => AesSecurityEngine.decrypt key data
  | .aes_256_gcm => GpuSecurityEngine.decrypt key data

/-- C4, counterexample: for the AES-256-GCM suite, decrypting the
engine's own encryption of the empty message under the all-zero key and
IV fails ("Ciphertext too short for authentication tag"): the engine
already stripped the 16-byte tag, and `decrypt_cpu` tries to strip
another 16 bytes from what remains. -/
theorem C4_roundtrip_counterexample :
    CryptoEngine.decrypt .aes_256_gcm (List.replicate 32 0)
      (CryptoEngine.encrypt .aes_256_gcm (List.replicate 32 0)
        (List.replicate 12 0) []) =
      .error "Ciphertext too short for authentication tag" := by
  rfl

/-- C4 (amended): with the same 32-byte key on both sides and the
per-frame nonce/IV of the suite's size, `decrypt (encrypt b) = b` holds
for the HIGH, FAST and AES suites — but never for AES-256-GCM, whose
decryption path strips the authentication tag twice and either rejects
the frame or returns a plaintext 16 bytes short. -/
theorem C4_suite_roundtrip (s : SecurityLevel) (key nonce data : List Nat)
    (hn : nonce.length = s.nonce_size) :
    (s ≠ .aes_256_gcm →
      CryptoEngine.decrypt s key
        (CryptoEngine.encrypt s key nonce data) = .ok data) ∧
    (s = .aes_256_gcm →
      CryptoEngine.decrypt s key
        (CryptoEngine.encrypt s key nonce data) ≠ .ok data) := by
  cases s with
  | high =>
    exact ⟨fun _ => HighSecurityEngine.decrypt_encrypt_high key nonce data hn,
      by simp⟩
  | fast =>
    exact ⟨fun _ => congrArg Except.ok
      (XorCipher.process_process_xor key 0 data), by simp⟩
  | aes =>
    exact ⟨fun _ => AesSecurityEngine.decrypt_encrypt_aes key nonce data hn,
      by simp⟩
  | aes_256_gcm =>
    exact ⟨by simp,
      fun _ => GpuSecurityEngine.decrypt_encrypt_ne key nonce data hn⟩

theorem C4_suite_roundtrip_witness :
    CryptoEngine.decrypt .fast (List.replicate 32 7)
      (CryptoEngine.encrypt .fast (List.replicate 32 7) [] [1, 2, 3]) =
      .ok [1, 2, 3] :=
  (C4_suite_roundtrip .fast (List.replicate 32 7) [] [1, 2, 3] rfl).1
    (by decide)

/-! ## Path utilities (`common/utils.cpp`, `file/file_manager.cpp`)

The model targets the POSIX build: the path separator is `/`,
`convert_to_native_path` turns backslashes into slashes, and a path is
absolute iff it starts with `/`.  `std::filesystem` path normalization
(`lexically_normal`) is modelled on `/`-separated segment lists. -/

/-- `common::convert_to_native_path` on POSIX: `\\` becomes `/`
(character map written over the char list so concrete paths evaluate). -/
def convert_to_native_path (p : String) : String :=
  String.mk (p.toList.map fun c => if c = '\\' then '/' else c)

/-- `common::is_absolute_path` on POSIX: non-empty and starts with `/`. -/
def is_absolute_path (p : String) : Bool :=
  match p.toList with
  | [] => false
  | c :: _ => c = '/'

/-- Splitting a character list at `/` (the semantics of
`String.splitOn "/"`, written structurally so that concrete paths
evaluate). -/
def split_segs : List Char → List String
  | [] => [""]
  | c :: rest =>
    let r := split_segs rest
    if c = '/' then "" :: r
    else (String.singleton c ++ r.headD "") :: r.tail

/-- The raw `/`-separated components of a path string. -/
def path_segs (p : String) : List String := split_segs p.toList

/-- One component step of the filename-stack normalization at the heart
of `path::lexically_normal`: drop empty and `.` components, resolve `..`
against the stack (absolute paths discard excess `..`, relative paths
keep it). -/
def normalize_step (abs : Bool) (acc : List String) (s : String) :
    List String :=
  if s = "" ∨ s = "." then acc
  else if s = ".." then
    match acc.getLast? with
    | some t => if t = ".." then acc ++ [".."] else acc.dropLast
    | none => if abs then acc else [".."]
  else acc ++ [s]

/-- The normalized component list of `path::lexically_normal`. -/
def normalize_segs (abs : Bool) (segs : List String) : List String :=
  segs.foldl (normalize_step abs) []

/-- `FileManager::normalize_path` (`path::lexically_normal` rendered back
to a string): the normalized segments joined by `/`, with the root slash
for absolute paths and the trailing slash the C++ normal form keeps. -/
def FileManager.normalize_path (p : String) : String :=
  if p = "" then ""
  else
    let abs := is_absolute_path p
    let raw := path_segs p
    let segs := normalize_segs abs raw
    let trailing : Bool :=
      match raw.getLast? with
      | some t =>
          t == "" || t == "." ||
          (t == ".." && !segs.isEmpty && !(segs.getLast? == some ".."))
      | none => false
    if segs = [] then (if abs then "/" else ".")
    else
      (if abs then "/" ++ String.intercalate "/" segs
       else String.intercalate "/" segs) ++
      (if trailing then "/" else "")

/-- `FileManager::get_filename` (`path::filename`): the component after
the last separator (empty for a path ending in `/`). -/
def FileManager.get_filename (p : String) : String :=
  (path_segs p).getLastD ""

/-- `FileManager::get_directory` (`path::parent_path`): everything before
the last separator; `/x` has parent `/`, a single component has parent
the empty string. -/
def FileManager.get_directory (p : String) : String :=
  let parts := path_segs p
  if parts.length ≤ 1 then ""
  else
    let q := String.intercalate "/" parts.dropLast
    if q = "" then "/" else q

/-- `FileManager::join_path` (`path::operator/`): an absolute right side
replaces the left; otherwise the parts are joined with one separator. -/
def FileManager.join_path (base rel : String) : String :=
  if is_absolute_path rel then rel
  else if base = "" then rel
  else if base.endsWith "/" then base ++ rel
  else base ++ "/" ++ rel

/-- The length of the common prefix of two segment lists. -/
def common_prefix_len : List String → List String → Nat
  | a :: as, b :: bs => if a = b then 1 + common_prefix_len as bs else 0
  | _, _ => 0

/-- Whether the first character of a (rendered) path is `.`
(`relative.native()[0] == '.'`): the first character of its first
component. -/
def head_char_is_dot (s : String) : Bool :=
  match s.toList with
  | [] => false
  | c :: _ => c = '.'

/-- `FileManager::is_path_safe`: both arguments are normalized
(`lexically_normal`) and compared with `std::filesystem::relative`; the
path is safe iff the relative path is `.` or is non-empty and does not
start with a `.` character.  `std::filesystem::relative` weakly
canonicalizes both sides; for absolute, symlink-free paths — the only
regime in which the theorems below invoke this definition — weak
canonicalization is lexical normalization (canonical paths carry no
trailing separator, so the comparison is on the normalized segment
lists).  For a *relative* argument `weakly_canonical` absolutizes it
against the process working directory, which this state-free model
cannot express, so the absoluteness-mismatch branch below is faithful
only under the absolute-path hypotheses the theorems carry; symlinks
are outside the filesystem model altogether.  The relative path of `p`
against `base` is `..` for every unmatched base component followed by
the unmatched components of `p`, empty when the unmatched base
components contain more `..`s than names. -/
def safe_segs (ps bs : List String) : Bool :=
  if ((bs.drop (common_prefix_len ps bs)).filter
        (fun s => s ≠ "..")).length <
      ((bs.drop (common_prefix_len ps bs)).filter
        (fun s => s = "..")).length then false
  else if ((bs.drop (common_prefix_len ps bs)).filter
        (fun s => s ≠ "..")).length =
      ((bs.drop (common_prefix_len ps bs)).filter
        (fun s => s = "..")).length ∧
      ps.drop (common_prefix_len ps bs) = [] then true
  else
    match List.replicate
        (((bs.drop (common_prefix_len ps bs)).filter
            (fun s => s ≠ "..")).length -
          ((bs.drop (common_prefix_len ps bs)).filter
            (fun s => s = "..")).length) ".." ++
        ps.drop (common_prefix_len ps bs) with
    | [] => false
    | s :: _ => s ≠ "" && !head_char_is_dot s

def FileManager.is_path_safe (path base : String) : Bool :=
  if is_absolute_path path ≠ is_absolute_path base then false
  else
    safe_segs (normalize_segs (is_absolute_path path) (path_segs path))
      (normalize_segs (is_absolute_path base) (path_segs base))

/-! ## Filesystem model (`std::filesystem` effects of
`file_manager.cpp`)

The disk is a finite map from paths to byte contents plus a set of
directories; `FileManager`'s operations are their documented
`std::filesystem`/`fstream` semantics on that state. -/

structure FileSystem where
  files : List (String × List Nat)
  dirs : List String
deriving Repr, DecidableEq

def FileSystem.lookup (fs : FileSystem) (p : String) : Option (List Nat) :=
  (fs.files.find? (fun e => e.1 = p)).map (fun e => e.2)

/-- `std::filesystem::exists`. -/
def FileSystem.pathExists (fs : FileSystem) (p : String) : Bool :=
  (fs.lookup p).isSome || fs.dirs.contains p

/-- `FileManager::is_directory` (`std::filesystem::is_directory`). -/
def FileSystem.is_directory (fs : FileSystem) (p : String) : Bool :=
  fs.dirs.contains p

/-- `FileManager::file_size` for an existing file. -/
def FileSystem.file_size (fs : FileSystem) (p : String) : Nat :=
  ((fs.lookup p).getD []).length

/-- `FileManager::get_partial_file_size`: 0 when the path does not
exist, the on-disk size otherwise. -/
def FileSystem.get_partial_file_size (fs : FileSystem) (p : String) :
    Nat :=
  if fs.pathExists p then fs.file_size p else 0

/-- `FileManager::create_directories`. -/
def FileSystem.create_directories (fs : FileSystem) (p : String) :
    FileSystem :=
  { fs with dirs := if fs.dirs.contains p then fs.dirs else p :: fs.dirs }

def FileSystem.setFile (fs : FileSystem) (p : String) (c : List Nat) :
    FileSystem :=
  { fs with files :=
      if (fs.lookup p).isSome then
        fs.files.map (fun e => if e.1 = p then (p, c) else e)
      else (p, c) :: fs.files }

/-- `FileManager::write_file_chunk`: create the parent directory if
missing; open with truncation when `offset == 0` and in read/write mode
otherwise (creating the file when absent); `seekp(offset)` (zero-filling
any gap past end-of-file, as `fstream` does) and overwrite
`data.size()` bytes at `offset`. -/
def FileManager.write_file_chunk (fs : FileSystem) (path : String)
    (off : Nat) (data : List Nat) : FileSystem :=
  let dir := FileManager.get_directory path
  let fs1 := if dir ≠ "" ∧ ¬fs.pathExists dir then
      fs.create_directories dir
    else fs
  let old := if off = 0 then [] else (fs1.lookup path).getD []
  let padded := if old.length < off then
      old ++ List.replicate (off - old.length) 0
    else old
  fs1.setFile path
    (padded.take off ++ data ++ padded.drop (off + data.length))

/-! ## Server-side state machine (`server/server.cpp`)

`ConnectionHandler` is modelled as pure transition functions over the
per-connection state (the filesystem plus `current_file_path_`).  The
message records mirror the wire structures but carry paths as strings,
as the handlers receive them.  Where the C++ default-constructs a
response and an exception path leaves numeric members unset
(indeterminate), the model pins them to 0; `std::string` members really
default to `""`.  The claims below never depend on a pinned value. -/

namespace server

structure FileRequest where
  source_path : String
  destination_path : String
  recursive : Bool
  resume_offset : Nat
deriving Repr, DecidableEq

structure FileResponse where
  success : Bool
  error_message : String
  file_size : Nat
  resume_offset : Nat
deriving Repr, DecidableEq

structure FileData where
  offset : Nat
  data : List Nat
  is_last_chunk : Bool
  compressed : Bool
deriving Repr, DecidableEq

structure FileAck where
  bytes_received : Nat
  success : Bool
  error_message : String
deriving Repr, DecidableEq

structure ServerConfig where
  allowed_paths : List String
  require_auth : Bool
  secret_key_present : Bool
deriving Repr, DecidableEq

/-- Per-connection mutable state: the shared filesystem and
`current_file_path_` (the empty string is the C++ "no transfer in
progress" state). -/
structure ConnState where
  fs : FileSystem
  current_file_path : String
deriving Repr, DecidableEq

/-- `ConnectionHandler::is_path_allowed`: convert to native separators,
normalize, and accept iff some configured base deems the path safe.
(`is_path_safe` applies `lexically_normal` to its arguments itself, so
the handler's pre-normalization is absorbed by the idempotence of
normalization; the model hands `is_path_safe` the native path.) -/
def is_path_allowed (allowed : List String) (p : String) : Bool :=
  allowed.any fun a =>
    FileManager.is_path_safe (convert_to_native_path p) a

/-- `ConnectionHandler::resolve_path`: native separators, absolute
required, normalized.  The error value is the `what()` of the thrown
`FileException`, which prepends `"File error: "` to the message given
at the throw site (exceptions.h). -/
def resolve_path (p : String) : Except String String :=
  if is_absolute_path (convert_to_native_path p) then
    .ok (FileManager.normalize_path (convert_to_native_path p))
  else
    .error ("File error: Relative paths are not allowed. All paths must be absolute. Path: "
      ++ p)

/-- Whether the resolved path's last character is a separator
(`resolved_path.back() == '/' || resolved_path.back() == '\\'`). -/
def ends_with_sep (p : String) : Bool :=
  p.endsWith "/" || p.endsWith "\\"

/-- `ConnectionHandler::handle_file_request` (server.cpp 107-162): path
authorization, resolution, directory-destination filename append, the
resume-offset probe, lazy parent-directory creation, and the
`FileResponse`.  Exceptions (denied or relative path) become the caught
branch: `success = false` with `e.what()` — for the `FileException`s
thrown here that is the message prefixed with `"File error: "`
(exceptions.h) — and the state untouched. -/
def handle_file_request (cfg : ServerConfig) (st : ConnState)
    (req : FileRequest) : ConnState × FileResponse :=
  if ¬is_path_allowed cfg.allowed_paths req.destination_path then
    (st, ⟨false, "File error: Access denied to path: " ++
      req.destination_path, 0, 0⟩)
  else
    match resolve_path req.destination_path with
    | .error msg => (st, ⟨false, msg, 0, 0⟩)
    | .ok rp0 =>
      let rp := if ends_with_sep rp0 ∨ st.fs.is_directory rp0 then
          FileManager.join_path rp0
            (FileManager.get_filename req.source_path)
        else rp0
      let resume := if 0 < req.resume_offset then
          st.fs.get_partial_file_size rp
        else 0
      let dir := FileManager.get_directory rp
      let fs' := if dir ≠ "" ∧ ¬st.fs.pathExists dir then
          st.fs.create_directories dir
        else st.fs
      (⟨fs', rp⟩, ⟨true, "", 0, resume⟩)

/-- `ConnectionHandler::handle_file_data` (server.cpp 164-205): the
missing-`current_file_path_` error is caught in-handler and answered
with a failed ack; the marker-file basenames create the parent
directory without touching the file map; otherwise the chunk is
written.  `bytes_received` is the `uint64_t` sum `offset + data.size()`. -/
def handle_file_data (st : ConnState) (d : FileData) :
    ConnState × FileAck :=
  if st.current_file_path = "" then
    (st, ⟨0, false, "No file transfer in progress"⟩)
  else
    let filename := FileManager.get_filename st.current_file_path
    if filename = ".netcopy_dir_marker" ∨ filename = ".netcopy_empty_dir"
    then
      let dir := FileManager.get_directory st.current_file_path
      let fs' := if dir ≠ "" ∧ ¬st.fs.pathExists dir then
          st.fs.create_directories dir
        else st.fs
      (⟨fs', st.current_file_path⟩,
       ⟨(d.offset + d.data.length) % 18446744073709551616, true, ""⟩)
    else
      (⟨FileManager.write_file_chunk st.fs st.current_file_path d.offset
          d.data, st.current_file_path⟩,
       ⟨(d.offset + d.data.length) % 18446744073709551616, true, ""⟩)

/-- The reply a dispatch step sends back, if any. -/
inductive Reply where
  | fileResponse (r : FileResponse)
  | fileAck (a : FileAck)
deriving Repr, DecidableEq

/-- A message as the dispatch switch in `ConnectionHandler::handle` sees
it: a file request, a file data frame, or any other successfully
deserialized message (the `default:` case, which only logs a warning). -/
inductive InMsg where
  | fileRequest (r : FileRequest)
  | fileData (d : FileData)
  | other
deriving Repr, DecidableEq

/-- One iteration of the `while (true)` message loop of
`ConnectionHandler::handle` after a frame has been received and
deserialized.  An `.error` result models a worker-terminating exception
(the fate of framing/crypto/deserialize failures inside
`receive_message`, which happen before this dispatch); the dispatch
itself catches everything, replies, and keeps the connection open. -/
def connection_step (cfg : ServerConfig) (st : ConnState) :
    InMsg → Except String (ConnState × Option Reply)
  | .fileRequest r =>
      .ok ((handle_file_request cfg st r).1,
        some (.fileResponse (handle_file_request cfg st r).2))
  | .fileData d =>
      .ok ((handle_file_data st d).1,
        some (.fileAck (handle_file_data st d).2))
  | .other => .ok (st, none)

/-- `ConnectionHandler::send_message` (server.cpp 207-224) encrypts iff
a crypto engine or the legacy cipher exists — with no check of the
message type or of `handshake_completed_`. -/
def send_encrypts (has_engine has_legacy : Bool) : Bool :=
  has_engine || has_legacy

/-- The server's state at the moment `perform_handshake` sends the
`HandshakeResponse` (server.cpp 63-105): the engine was created right
before (iff `require_auth` and a key is configured), the legacy cipher
exists iff the config carried a secret key, and `handshake_completed_`
is still false (it is set only after the send). -/
def handshake_response_flags (cfg : ServerConfig) (has_legacy : Bool) :
    Bool × Bool × Bool :=
  (cfg.require_auth && cfg.secret_key_present, has_legacy, false)

end server

/-- `Client::send_message` (client.cpp 375-396) encrypts iff the message
is not a handshake frame AND a cipher exists; `msg_type` is the wire
`MessageType` value. -/
def client.send_encrypts (msg_type : Nat) (has_engine has_legacy : Bool) :
    Bool :=
  (msg_type != 1 && msg_type != 2) && (has_engine || has_legacy)

/-! ## Lemmas about path authorization (for claim C8) -/

/-- Absolute-path normalization never leaves a `..` component. -/
theorem not_dotdot_mem_normalize_step (acc : List String) (s : String)
    (h : ".." ∉ acc) : ".." ∉ normalize_step true acc s := by
  rw [normalize_step]
  by_cases h1 : s = "" ∨ s = "."
  · simpa [h1]
  · rw [if_neg h1]
    by_cases h2 : s = ".."
    · rw [if_pos h2]
      cases hl : acc.getLast? with
      | none => simpa
      | some t =>
        have ht : t ∈ acc := by
          obtain ⟨w, hw⟩ := List.getLast?_eq_some_iff.mp hl
          rw [hw]
          simp
        have htne : t ≠ ".." := fun he => h (he ▸ ht)
        show ".." ∉ if t = ".." then acc ++ [".."] else acc.dropLast
        rw [if_neg htne]
        intro hm
        exact h (List.mem_of_mem_dropLast hm)
    · rw [if_neg h2]
      intro hm
      rcases List.mem_append.mp hm with hm | hm
      · exact h hm
      · simp at hm
        exact h2 hm.symm

theorem not_dotdot_mem_normalize (segs : List String) :
    ".." ∉ normalize_segs true segs := by
  have h : ∀ acc, ".." ∉ acc →
      ".." ∉ segs.foldl (normalize_step true) acc := by
    induction segs with
    | nil => intro acc hacc; exact hacc
    | cons s rest ih =>
      intro acc hacc
      rw [List.foldl_cons]
      exact ih _ (not_dotdot_mem_normalize_step acc s hacc)
  exact h [] (by simp)

/-- If the common prefix consumes all of `bs`, then `bs` is a prefix of
`ps`. -/
theorem prefix_of_drop_common_eq_nil :
    ∀ (ps bs : List String),
      bs.drop (common_prefix_len ps bs) = [] → bs <+: ps
  | _, [] => fun _ => List.nil_prefix
  | [], b :: bt => by
    intro h
    simp [common_prefix_len] at h
  | p :: pt, b :: bt => by
    intro h
    rw [common_prefix_len] at h
    by_cases hpb : p = b
    · rw [if_pos hpb] at h
      have hrec : bt.drop (common_prefix_len pt bt) = [] := by
        rw [List.drop_eq_nil_iff] at h ⊢
        simp at h
        omega
      exact List.cons_prefix_cons.mpr
        ⟨hpb.symm, prefix_of_drop_common_eq_nil pt bt hrec⟩
    · rw [if_neg hpb] at h
      simp at h

/-- If `safe_segs` accepts `ps` against a `..`-free `bs`, then `bs` is a
prefix of `ps`: the relative path would otherwise start with `..` (a `.`
character) for every unmatched base component. -/
theorem safe_segs_prefix (ps bs : List String) (hnd : ".." ∉ bs)
    (hsafe : safe_segs ps bs = true) : bs <+: ps := by
  have hnodot : ".." ∉ bs.drop (common_prefix_len ps bs) := fun hm =>
    hnd (List.drop_subset _ _ hm)
  have hminus : ((bs.drop (common_prefix_len ps bs)).filter
      (fun s => s = "..")).length = 0 := by
    have : (bs.drop (common_prefix_len ps bs)).filter
        (fun s => s = "..") = [] := by
      rw [List.filter_eq_nil_iff]
      intro a ha
      simp only [decide_eq_true_eq]
      intro heq
      exact hnodot (heq ▸ ha)
    rw [this]
    rfl
  have hplus : ((bs.drop (common_prefix_len ps bs)).filter
      (fun s => s ≠ "..")).length =
      (bs.drop (common_prefix_len ps bs)).length := by
    have : (bs.drop (common_prefix_len ps bs)).filter
        (fun s => s ≠ "..") = bs.drop (common_prefix_len ps bs) := by
      rw [List.filter_eq_self]
      intro a ha
      simp only [ne_eq, decide_not, Bool.not_eq_eq_eq_not, Bool.not_true,
        decide_eq_false_iff_not]
      intro heq
      exact hnodot (heq ▸ ha)
    rw [this]
  have hdone : bs.drop (common_prefix_len ps bs) = [] := by
    rw [safe_segs, hminus, hplus] at hsafe
    by_cases hrest : bs.drop (common_prefix_len ps bs) = []
    · exact hrest
    · exfalso
      have hpos : 0 < (bs.drop (common_prefix_len ps bs)).length := by
        cases hx : bs.drop (common_prefix_len ps bs) with
        | nil => exact absurd hx hrest
        | cons a l => simp [hx]
      rw [if_neg (by omega)] at hsafe
      rw [if_neg (by intro hand; omega)] at hsafe
      have hrep : List.replicate
          ((bs.drop (common_prefix_len ps bs)).length - 0) ".." ++
          ps.drop (common_prefix_len ps bs) =
          ".." :: (List.replicate
            ((bs.drop (common_prefix_len ps bs)).length - 1) ".." ++
            ps.drop (common_prefix_len ps bs)) := by
        have : (bs.drop (common_prefix_len ps bs)).length - 0 =
            ((bs.drop (common_prefix_len ps bs)).length - 1) + 1 := by
          omega
        rw [this, List.replicate_succ]
        rfl
      rw [hrep] at hsafe
      have hsafe2 : (decide ((".." : String) ≠ "") &&
          !head_char_is_dot "..") = true := hsafe
      exact absurd hsafe2 (by decide)
  exact prefix_of_drop_common_eq_nil ps bs hdone

/-- If `is_path_safe` accepts `path` against an absolute `base`, the
paths agree on absoluteness and the normalized components of `base` are
a prefix of those of `path`. -/
theorem is_path_safe_contained (path base : String)
    (hb : is_absolute_path base = true)
    (hsafe : FileManager.is_path_safe path base = true) :
    is_absolute_path path = is_absolute_path base ∧
    normalize_segs (is_absolute_path base) (path_segs base) <+:
      normalize_segs (is_absolute_path path) (path_segs path) := by
  have hab : is_absolute_path path = is_absolute_path base := by
    by_contra hne
    rw [FileManager.is_path_safe, if_pos hne] at hsafe
    exact absurd hsafe (by simp)
  refine ⟨hab, ?_⟩
  rw [FileManager.is_path_safe, if_neg (by rw [hab]; simp)] at hsafe
  apply safe_segs_prefix
  · rw [hb]
    exact not_dotdot_mem_normalize (path_segs base)
  · exact hsafe

/-! ## Claims C3, C7, C8, C9 -/

/-- C3, counterexample: the claimed invariant "every frame written before
`handshake_done` is true is sent in cleartext" fails on the server.  With
`require_auth` and a configured key, `perform_handshake` creates the
crypto engine *before* sending the `HandshakeResponse`, and
`ConnectionHandler::send_message` encrypts whenever an engine exists,
with no check of `handshake_completed_` (still false at that write) or
of the message type: the `HandshakeResponse` goes out encrypted. -/
theorem C3_cleartext_counterexample :
    (server.handshake_response_flags ⟨["/srv"], true, true⟩ false).2.2 =
      false ∧
    server.send_encrypts
      (server.handshake_response_flags ⟨["/srv"], true, true⟩ false).1
      (server.handshake_response_flags ⟨["/srv"], true, true⟩ false).2.1 =
      true := by
  exact ⟨rfl, rfl⟩

/-- C3 (amended): the client sends the two handshake frame types in
cleartext always and encrypts every other frame exactly when a cipher
(engine or legacy) is present; the server encrypts a frame exactly when
a cipher is present, independent of the message type and of
`handshake_completed_` — so the server's `HandshakeResponse`, written
while `handshake_completed_` is still false, is encrypted whenever
`require_auth` holds with a configured key or the legacy cipher exists,
and after the handshake a non-handshake frame is plaintext only when no
cipher is present. -/
theorem C3_encryption_policy (cfg : server.ServerConfig)
    (has_legacy : Bool) (t : Nat) (he hl : Bool) :
    (client.send_encrypts 1 he hl = false ∧
      client.send_encrypts 2 he hl = false) ∧
    (t ≠ 1 → t ≠ 2 → client.send_encrypts t he hl = (he || hl)) ∧
    (server.send_encrypts he hl = (he || hl)) ∧
    ((server.handshake_response_flags cfg has_legacy).2.2 = false ∧
      server.send_encrypts
        (server.handshake_response_flags cfg has_legacy).1
        (server.handshake_response_flags cfg has_legacy).2.1 =
        ((cfg.require_auth && cfg.secret_key_present) || has_legacy)) := by
  refine ⟨⟨by simp [client.send_encrypts], by simp [client.send_encrypts]⟩,
    fun h1 h2 => ?_, rfl, rfl, rfl⟩
  simp [client.send_encrypts, bne_iff_ne, h1, h2]

theorem C3_encryption_policy_witness :
    client.send_encrypts 5 true false = (true || false) :=
  ((C3_encryption_policy ⟨["/srv"], true, true⟩ false 5 true
    false).2.1) (by decide) (by decide)

/-- C7, counterexample: a `FileData` on a connection with no established
`current_file_path_` is NOT fatal.  The error is thrown and caught
inside `handle_file_data` itself; the worker replies with
`FileAck{success=false, "No file transfer in progress"}` and the message
loop continues (the step result is `.ok`, not a worker-terminating
error). -/
theorem C7_wrong_state_counterexample :
    server.connection_step ⟨["/srv"], true, true⟩ ⟨⟨[], []⟩, ""⟩
      (.fileData ⟨0, [65], true, false⟩) =
      .ok (⟨⟨[], []⟩, ""⟩,
        some (.fileAck ⟨0, false, "No file transfer in progress"⟩)) := by
  rfl

/-- C7 (amended): a `FileData` received before any `FileRequest` has
established `current_file_path_` is handled as a non-fatal per-request
error: the server replies `FileAck{success=false, error_message="No file
transfer in progress"}`, changes no state, and the connection stays
open for subsequent messages. -/
theorem C7_wrong_state_nonfatal (cfg : server.ServerConfig)
    (st : server.ConnState) (d : server.FileData)
    (h : st.current_file_path = "") :
    server.connection_step cfg st (.fileData d) =
      .ok (st, some (.fileAck ⟨0, false, "No file transfer in progress"⟩))
    := by
  simp [server.connection_step, server.handle_file_data, h]

theorem C7_wrong_state_nonfatal_witness :
    server.connection_step ⟨[], false, false⟩
      ⟨⟨[("/srv/a", [1])], ["/srv"]⟩, ""⟩ (.fileData ⟨4, [2, 3], false, true⟩)
      = .ok (⟨⟨[("/srv/a", [1])], ["/srv"]⟩, ""⟩,
        some (.fileAck ⟨0, false, "No file transfer in progress"⟩)) :=
  C7_wrong_state_nonfatal ⟨[], false, false⟩
    ⟨⟨[("/srv/a", [1])], ["/srv"]⟩, ""⟩ ⟨4, [2, 3], false, true⟩ rfl

/-- The spec's notion of a destination being lexically contained in (at
or beneath) a base directory: same absoluteness and the normalized
components of the base are a prefix of the destination's (the
destination compared after its wire-to-native separator conversion). -/
def lexically_contained (p base : String) : Prop :=
  is_absolute_path (convert_to_native_path p) = is_absolute_path base ∧
  normalize_segs (is_absolute_path base) (path_segs base) <+:
    normalize_segs (is_absolute_path (convert_to_native_path p))
      (path_segs (convert_to_native_path p))

/-- C8, counterexample: the denial reply's `error_message` is not
`"Access denied to path: " ++ p` as claimed.  The handler throws
`FileException("Access denied to path: " + p)`, whose `what()`
prepends `"File error: "` (exceptions.h), and the catch block stores
`e.what()` into the response — so a concrete denied request is
answered with the prefixed message, which differs from the claimed
one. -/
theorem C8_denied_message_counterexample :
    server.connection_step ⟨["/srv/data"], true, true⟩
      ⟨⟨[], ["/srv/data"]⟩, ""⟩
      (.fileRequest ⟨"/home/u/passwd", "/etc/passwd", false, 0⟩) =
      .ok (⟨⟨[], ["/srv/data"]⟩, ""⟩,
        some (.fileResponse
          ⟨false, "File error: Access denied to path: /etc/passwd", 0,
            0⟩)) ∧
    ("File error: Access denied to path: /etc/passwd" : String) ≠
      "Access denied to path: /etc/passwd" := by
  exact ⟨rfl, by decide⟩

/-- C8 (amended): a `FileRequest` whose destination converts to an
absolute native path not lexically contained in any configured
(absolute) allowed base directory is answered with
`FileResponse{success=false, error_message="File error: Access denied
to path: " + p}` (the `"File error: "` prefix comes from the
`FileException`'s `what()`); the state (filesystem and
`current_file_path_`) is untouched — no file is created — and the step
keeps the connection open.  The absoluteness hypotheses keep the claim
inside the regime where the lexical containment model coincides with
`std::filesystem::weakly_canonical` (a relative destination would be
absolutized against the server's working directory, which the model
does not carry). -/
theorem C8_access_denied (cfg : server.ServerConfig)
    (st : server.ConnState) (req : server.FileRequest)
    (hbase : ∀ b ∈ cfg.allowed_paths, is_absolute_path b = true)
    (habs : is_absolute_path (convert_to_native_path
      req.destination_path) = true)
    (hnc : ∀ b ∈ cfg.allowed_paths,
      ¬lexically_contained req.destination_path b) :
    server.connection_step cfg st (.fileRequest req) =
      .ok (st, some (.fileResponse
        ⟨false, "File error: Access denied to path: " ++
          req.destination_path, 0, 0⟩))
    := by
  have hdeny : server.is_path_allowed cfg.allowed_paths
      req.destination_path = false := by
    rw [server.is_path_allowed, List.any_eq_false]
    intro b hb
    simp only [Bool.not_eq_true]
    by_contra hsafe
    rw [Bool.not_eq_false] at hsafe
    exact hnc b hb
      (is_path_safe_contained (convert_to_native_path req.destination_path)
        b (hbase b hb) hsafe)
  simp [server.connection_step, server.handle_file_request, hdeny]

theorem C8_access_denied_witness :
    server.connection_step ⟨["/srv/data"], true, true⟩
      ⟨⟨[], ["/srv/data"]⟩, ""⟩
      (.fileRequest ⟨"/home/u/passwd", "/etc/passwd", false, 0⟩) =
      .ok (⟨⟨[], ["/srv/data"]⟩, ""⟩,
        some (.fileResponse
          ⟨false, "File error: Access denied to path: /etc/passwd", 0,
            0⟩)) :=
  C8_access_denied ⟨["/srv/data"], true, true⟩ ⟨⟨[], ["/srv/data"]⟩, ""⟩
    ⟨"/home/u/passwd", "/etc/passwd", false, 0⟩
    (by intro b hb; fin_cases hb; rfl)
    (by decide)
    (by
      intro b hb
      fin_cases hb
      intro hcon
      have hpre := hcon.2
      revert hpre
      decide)

/-- C9: when `current_file_path_`'s basename is one of the
empty-directory sentinels, processing a `FileData` leaves the file map
untouched (the sentinel file is never created), ensures the parent
directory exists, keeps the session path, and acknowledges with
`success = true`. -/
theorem C9_marker_file (st : server.ConnState) (d : server.FileData)
    (hcur : st.current_file_path ≠ "")
    (hm : FileManager.get_filename st.current_file_path =
        ".netcopy_empty_dir" ∨
      FileManager.get_filename st.current_file_path =
        ".netcopy_dir_marker") :
    (server.handle_file_data st d).1.fs.files = st.fs.files ∧
    (server.handle_file_data st d).2.success = true ∧
    (FileManager.get_directory st.current_file_path ≠ "" →
      (server.handle_file_data st d).1.fs.pathExists
        (FileManager.get_directory st.current_file_path) = true) ∧
    (server.handle_file_data st d).1.current_file_path =
      st.current_file_path := by
  have hmm : FileManager.get_filename st.current_file_path =
      ".netcopy_dir_marker" ∨
      FileManager.get_filename st.current_file_path =
      ".netcopy_empty_dir" := hm.symm
  simp only [server.handle_file_data]
  rw [if_neg (by simp [hcur]), if_pos hmm]
  by_cases hdir : FileManager.get_directory st.current_file_path ≠ "" ∧
      ¬st.fs.pathExists (FileManager.get_directory st.current_file_path) =
        true
  · rw [if_pos hdir]
    refine ⟨rfl, rfl, fun _ => ?_, rfl⟩
    simp [FileSystem.pathExists, FileSystem.create_directories,
      FileSystem.lookup]
    by_cases hc : FileManager.get_directory st.current_file_path ∈
        st.fs.dirs
    · exact Or.inr (by rw [if_pos hc]; exact hc)
    · exact Or.inr (by rw [if_neg hc]; exact List.mem_cons_self _ _)
  · rw [if_neg hdir]
    refine ⟨rfl, rfl, fun hne => ?_, rfl⟩
    rw [not_and_or] at hdir
    rcases hdir with hdir | hdir
    · exact absurd hne hdir
    · rw [not_not] at hdir
      exact hdir

theorem C9_marker_file_witness :
    ((server.handle_file_data
        ⟨⟨[], []⟩, "/srv/empty/.netcopy_empty_dir"⟩
        ⟨0, [], true, false⟩).1.fs.files = ([] : List (String × List Nat)) ∧
      (server.handle_file_data
        ⟨⟨[], []⟩, "/srv/empty/.netcopy_empty_dir"⟩
        ⟨0, [], true, false⟩).2.success = true ∧
      ("/srv/empty" ≠ "" →
        (server.handle_file_data
          ⟨⟨[], []⟩, "/srv/empty/.netcopy_empty_dir"⟩
          ⟨0, [], true, false⟩).1.fs.pathExists "/srv/empty" = true) ∧
      (server.handle_file_data
        ⟨⟨[], []⟩, "/srv/empty/.netcopy_empty_dir"⟩
        ⟨0, [], true, false⟩).1.current_file_path =
        "/srv/empty/.netcopy_empty_dir") := by
  have h := C9_marker_file ⟨⟨[], []⟩, "/srv/empty/.netcopy_empty_dir"⟩
    ⟨0, [], true, false⟩ (by decide) (Or.inl (by rfl))
  have hd : FileManager.get_directory "/srv/empty/.netcopy_empty_dir" =
      "/srv/empty" := by rfl
  rw [hd] at h
  exact h

/-! ## Claim C5 -/

/-- C5: a `FileRequest` that passes path authorization (in the spec's
ordering that entails an absolute destination — §4.7 resolves and
rejects non-absolute paths before the allowed-bases check) is answered
with `success = true`, and its `resume_offset` is the on-disk size of
the resolved destination (`current_file_path_` as recorded in the
session) when the request's `resume_offset` is non-zero — 0 when the
destination does not exist — and 0 when the request's `resume_offset`
is 0, even if the destination exists. -/
theorem C5_resume_probe (cfg : server.ServerConfig)
    (st : server.ConnState) (req : server.FileRequest)
    (hallow : server.is_path_allowed cfg.allowed_paths
      req.destination_path = true)
    (habs : is_absolute_path (convert_to_native_path req.destination_path)
      = true) :
    (server.handle_file_request cfg st req).2.success = true ∧
    (server.handle_file_request cfg st req).2.resume_offset =
      (if 0 < req.resume_offset then
        (if st.fs.pathExists
            (server.handle_file_request cfg st req).1.current_file_path
         then st.fs.file_size
            (server.handle_file_request cfg st req).1.current_file_path
         else 0)
       else 0) := by
  have hres : server.resolve_path req.destination_path =
      .ok (FileManager.normalize_path
        (convert_to_native_path req.destination_path)) := by
    rw [server.resolve_path, if_pos habs]
  simp [server.handle_file_request, hallow, hres,
    FileSystem.get_partial_file_size]

theorem C5_resume_probe_witness :
    (server.handle_file_request ⟨["/tmp"], false, false⟩
      ⟨⟨[("/tmp/out.txt", [1, 2, 3, 4])], ["/tmp"]⟩, ""⟩
      ⟨"src.txt", "/tmp/out.txt", false, 1⟩).2.success = true ∧
    (server.handle_file_request ⟨["/tmp"], false, false⟩
      ⟨⟨[("/tmp/out.txt", [1, 2, 3, 4])], ["/tmp"]⟩, ""⟩
      ⟨"src.txt", "/tmp/out.txt", false, 1⟩).2.resume_offset =
      (if 0 < (1 : Nat) then
        (if (FileSystem.mk [("/tmp/out.txt", [1, 2, 3, 4])]
            ["/tmp"]).pathExists
            (server.handle_file_request ⟨["/tmp"], false, false⟩
              ⟨⟨[("/tmp/out.txt", [1, 2, 3, 4])], ["/tmp"]⟩, ""⟩
              ⟨"src.txt", "/tmp/out.txt", false, 1⟩).1.current_file_path
         then (FileSystem.mk [("/tmp/out.txt", [1, 2, 3, 4])]
            ["/tmp"]).file_size
            (server.handle_file_request ⟨["/tmp"], false, false⟩
              ⟨⟨[("/tmp/out.txt", [1, 2, 3, 4])], ["/tmp"]⟩, ""⟩
              ⟨"src.txt", "/tmp/out.txt", false, 1⟩).1.current_file_path
         else 0)
       else 0) :=
  C5_resume_probe ⟨["/tmp"], false, false⟩
    ⟨⟨[("/tmp/out.txt", [1, 2, 3, 4])], ["/tmp"]⟩, ""⟩
    ⟨"src.txt", "/tmp/out.txt", false, 1⟩ (by decide) (by decide)

/-! ## Claim C6 -/

theorem getD_replicate (n i : Nat) :
    (List.replicate n (0 : Nat)).getD i 0 = 0 := by
  induction n generalizing i with
  | zero => simp
  | succ k ih =>
    cases i with
    | zero => simp [List.replicate_succ]
    | succ j => simp [List.replicate_succ, ih]

theorem getD_take (l : List Nat) (n i : Nat) (h : i < n) :
    (l.take n).getD i 0 = l.getD i 0 := by
  induction l generalizing n i with
  | nil => simp
  | cons a t ih =>
    cases n with
    | zero => omega
    | succ m =>
      cases i with
      | zero => simp
      | succ j =>
        simp only [List.take, List.getD_cons_succ]
        exact ih m j (by omega)

theorem getD_drop (l : List Nat) (n i : Nat) :
    (l.drop n).getD i 0 = l.getD (n + i) 0 := by
  induction l generalizing n with
  | nil => simp
  | cons a t ih =>
    cases n with
    | zero => simp
    | succ m =>
      simp only [List.drop]
      rw [ih m]
      have : m + 1 + i = (m + i) + 1 := by omega
      rw [this, List.getD_cons_succ]

theorem find_update (l : List (String × List Nat)) (p : String)
    (c : List Nat) (h : (l.find? (fun e => e.1 = p)).isSome = true) :
    (l.map (fun e => if e.1 = p then (p, c) else e)).find?
      (fun e => e.1 = p) = some (p, c) := by
  induction l with
  | nil => simp at h
  | cons e t ih =>
    by_cases he : e.1 = p
    · simp [List.find?, he]
    · rw [List.find?_cons_of_neg _ (by simp [he])] at h
      simp only [List.map_cons, if_neg he]
      rw [List.find?_cons_of_neg _ (by simp [he])]
      exact ih h

/-- After `setFile`, the file is present with exactly the new content. -/
theorem FileSystem.lookup_setFile (fs : FileSystem) (p : String)
    (c : List Nat) : (fs.setFile p c).lookup p = some c := by
  rw [FileSystem.setFile]
  by_cases h : (fs.lookup p).isSome
  · have hfind : (fs.files.find? (fun e => e.1 = p)).isSome = true := by
      rw [FileSystem.lookup] at h
      cases hx : fs.files.find? (fun e => e.1 = p) with
      | none => rw [hx] at h; simp at h
      | some v => simp
    rw [if_pos h]
    simp only [FileSystem.lookup]
    rw [find_update fs.files p c hfind]
    rfl
  · rw [if_neg h]
    simp only [FileSystem.lookup]
    rw [List.find?_cons_of_pos _ (by simp)]
    rfl

/-- The content produced by `write_file_chunk`'s seek-and-overwrite:
bytes below the offset are the old bytes (zero-filled past old
end-of-file), the chunk sits at the offset, the old suffix past the
chunk survives, and the length grows exactly as needed. -/
theorem write_content_getD (old data padded W : List Nat) (off : Nat)
    (hpad : padded = if old.length < off then
        old ++ List.replicate (off - old.length) 0
      else old)
    (hW : W = padded.take off ++ data ++ padded.drop (off + data.length)) :
    (∀ i, i < off →
      W.getD i 0 = (if i < old.length then old.getD i 0 else 0)) ∧
    (∀ j, j < data.length → W.getD (off + j) 0 = data.getD j 0) ∧
    (∀ i, off + data.length ≤ i → W.getD i 0 = old.getD i 0) ∧
    W.length = max old.length (off + data.length) := by
  have hpl : padded.length = max old.length off := by
    rw [hpad]
    by_cases hc : old.length < off
    · rw [if_pos hc]
      simp only [List.length_append, List.length_replicate]
      omega
    · rw [if_neg hc]
      omega
  have htl : (padded.take off).length = off := by
    rw [List.length_take, hpl]
    omega
  have hpadget : ∀ i, padded.getD i 0 =
      (if i < old.length then old.getD i 0 else 0) := by
    intro i
    rw [hpad]
    by_cases hc : old.length < off
    · rw [if_pos hc]
      by_cases hio : i < old.length
      · rw [List.getD_append _ _ _ _ hio, if_pos hio]
      · rw [List.getD_append_right _ _ _ _ (by omega), if_neg hio,
          getD_replicate]
    · rw [if_neg hc]
      by_cases hio : i < old.length
      · rw [if_pos hio]
      · rw [if_neg hio, List.getD_eq_default _ _ (by omega)]
  refine ⟨fun i hi => ?_, fun j hj => ?_, fun i hi => ?_, ?_⟩
  · rw [hW, List.getD_append _ _ _ _
        (by simp only [List.length_append, htl]; omega),
      List.getD_append _ _ _ _ (by rw [htl]; omega),
      getD_take _ _ _ hi, hpadget]
  · rw [hW, List.getD_append _ _ _ _
        (by simp only [List.length_append, htl]; omega),
      List.getD_append_right _ _ _ _ (by rw [htl]; omega), htl]
    have hji : off + j - off = j := by omega
    rw [hji]
  · rw [hW, List.getD_append_right _ _ _ _
        (by simp only [List.length_append, htl]; omega)]
    simp only [List.length_append, htl]
    rw [getD_drop]
    have hii : off + data.length + (i - (off + data.length)) = i := by
      omega
    rw [hii, hpadget]
    by_cases hio : i < old.length
    · rw [if_pos hio]
    · rw [if_neg hio, List.getD_eq_default _ _ (by omega)]
  · rw [hW]
    simp only [List.length_append, List.length_drop, htl, hpl]
    omega

/-- `FileManager::write_file_chunk` leaves at `path` exactly the
seek-and-overwrite content (the parent-directory creation touches only
the directory set, never the file map). -/
theorem write_file_chunk_lookup (fs : FileSystem) (path : String)
    (off : Nat) (data old padded : List Nat)
    (hold : old = if off = 0 then [] else (fs.lookup path).getD [])
    (hpad : padded = if old.length < off then
        old ++ List.replicate (off - old.length) 0
      else old) :
    (FileManager.write_file_chunk fs path off data).lookup path =
      some (padded.take off ++ data ++ padded.drop (off + data.length))
    := by
  subst hpad hold
  simp only [FileManager.write_file_chunk]
  by_cases hc : FileManager.get_directory path ≠ "" ∧
      ¬fs.pathExists (FileManager.get_directory path)
  · rw [if_pos hc]
    exact (FileSystem.lookup_setFile _ _ _).trans rfl
  · rw [if_neg hc]
    exact (FileSystem.lookup_setFile _ _ _).trans rfl

/-- C6: for a `FileData` handled with a transfer in progress whose
destination is not a marker name, the destination file afterwards
exists; when `offset == 0` its content is exactly the chunk (prior
contents discarded — truncation); when `offset > 0` the write happens
in place: bytes below the offset keep their old values (zero-filled
where the old file was shorter than the offset, as `seekp` past
end-of-file produces), the chunk's bytes sit at `offset`, any old bytes
past the chunk survive, and the size becomes
`max old_size (offset + chunk_size)` — the file is created (possibly
zero-filled) when it did not exist in either case. -/
theorem C6_truncate_or_extend (st : server.ConnState)
    (d : server.FileData) (hcur : st.current_file_path ≠ "")
    (hm1 : FileManager.get_filename st.current_file_path ≠
      ".netcopy_dir_marker")
    (hm2 : FileManager.get_filename st.current_file_path ≠
      ".netcopy_empty_dir") :
    (((server.handle_file_data st d).1.fs.lookup
        st.current_file_path).isSome = true) ∧
    (d.offset = 0 →
      (server.handle_file_data st d).1.fs.lookup st.current_file_path =
        some d.data) ∧
    (0 < d.offset →
      (∀ i, i < d.offset →
        (((server.handle_file_data st d).1.fs.lookup
            st.current_file_path).getD []).getD i 0 =
          (if i < ((st.fs.lookup st.current_file_path).getD []).length
            then ((st.fs.lookup st.current_file_path).getD []).getD i 0
            else 0)) ∧
      (∀ j, j < d.data.length →
        (((server.handle_file_data st d).1.fs.lookup
            st.current_file_path).getD []).getD (d.offset + j) 0 =
          d.data.getD j 0) ∧
      (∀ i, d.offset + d.data.length ≤ i →
        (((server.handle_file_data st d).1.fs.lookup
            st.current_file_path).getD []).getD i 0 =
          ((st.fs.lookup st.current_file_path).getD []).getD i 0) ∧
      (((server.handle_file_data st d).1.fs.lookup
          st.current_file_path).getD []).length =
        max ((st.fs.lookup st.current_file_path).getD []).length
          (d.offset + d.data.length)) := by
  have hcond : ¬(FileManager.get_filename st.current_file_path =
      ".netcopy_dir_marker" ∨
      FileManager.get_filename st.current_file_path =
      ".netcopy_empty_dir") := by
    rintro (h | h)
    · exact hm1 h
    · exact hm2 h
  have hfs : (server.handle_file_data st d).1.fs =
      FileManager.write_file_chunk st.fs st.current_file_path d.offset
        d.data := by
    simp only [server.handle_file_data]
    rw [if_neg hcur, if_neg hcond]
  have hw := write_file_chunk_lookup st.fs st.current_file_path d.offset
    d.data _ _ rfl rfl
  rw [hfs, hw]
  simp only [Option.isSome_some, Option.getD_some]
  refine ⟨trivial, fun h0 => ?_, fun hpos => ?_⟩
  · simp [h0]
  · have hne : ¬d.offset = 0 := by omega
    rw [if_neg hne]
    exact write_content_getD ((st.fs.lookup st.current_file_path).getD
      []) d.data _ _ d.offset rfl rfl

/-- A concrete session for the C6 witness: a transfer in progress to
`/a/f`, which currently holds two bytes. -/
def C6_st : server.ConnState := ⟨⟨[("/a/f", [5, 6])], ["/a"]⟩, "/a/f"⟩

/-- A concrete chunk for the C6 witness: one byte at offset 3 (past old
end-of-file, exercising the zero-fill). -/
def C6_d : server.FileData := ⟨3, [9], true, false⟩

theorem C6_truncate_or_extend_witness :
    (C6_st.current_file_path ≠ "" ∧
      FileManager.get_filename C6_st.current_file_path ≠
        ".netcopy_dir_marker" ∧
      FileManager.get_filename C6_st.current_file_path ≠
        ".netcopy_empty_dir") ∧
    ((((server.handle_file_data C6_st C6_d).1.fs.lookup
        C6_st.current_file_path).isSome = true) ∧
     (C6_d.offset = 0 →
      (server.handle_file_data C6_st C6_d).1.fs.lookup
        C6_st.current_file_path = some C6_d.data) ∧
     (0 < C6_d.offset →
      (∀ i, i < C6_d.offset →
        (((server.handle_file_data C6_st C6_d).1.fs.lookup
            C6_st.current_file_path).getD []).getD i 0 =
          (if i <
              ((C6_st.fs.lookup C6_st.current_file_path).getD []).length
            then ((C6_st.fs.lookup C6_st.current_file_path).getD
              []).getD i 0
            else 0)) ∧
      (∀ j, j < C6_d.data.length →
        (((server.handle_file_data C6_st C6_d).1.fs.lookup
            C6_st.current_file_path).getD []).getD (C6_d.offset + j) 0 =
          C6_d.data.getD j 0) ∧
      (∀ i, C6_d.offset + C6_d.data.length ≤ i →
        (((server.handle_file_data C6_st C6_d).1.fs.lookup
            C6_st.current_file_path).getD []).getD i 0 =
          ((C6_st.fs.lookup C6_st.current_file_path).getD []).getD i 0) ∧
      (((server.handle_file_data C6_st C6_d).1.fs.lookup
          C6_st.current_file_path).getD []).length =
        max ((C6_st.fs.lookup C6_st.current_file_path).getD []).length
          (C6_d.offset + C6_d.data.length))) :=
  ⟨⟨by decide, by decide, by decide⟩,
   C6_truncate_or_extend C6_st C6_d (by decide) (by decide) (by decide)⟩

end NetCopy
